import Mathlib


/-!
Verification of the image-sound-synesthesia core against its specification.

The development shallowly embeds the JavaScript source:

* ColorModel:  ImageProcessor.rgbToHsv and HsvMapper.hsvToRgb, over exact
  rationals (JS floating point on these small fractions is exact enough that
  every rounding decision agrees with the rational computation).
* PixelGrid:   ImageProcessor.calculateAverageColor / applyPixelation /
  extractPixelData / getPixelAt / getColumnPixels over an abstract raster
  (width, height, pixel function).
* SoundMapper: HsvMapper.mapHueToFrequency and friends; the frequency value
  itself lives in ℝ because the source computes base * 2^((12*octave+semi)/12).
* VoicePool:   AudioEngine as a state structure with the Map of live synths
  and the scan-sound Map embedded as association lists keyed by an exact
  model of the JS keys (numbers vs strings such as "3_0" are distinct keys).
* Interaction: InteractiveCanvas.handleScanMove / handleScanRelease with the
  setTimeout-deferred voice onsets modelled as an explicit pending queue.
-/

/-! ## Preliminaries: JS numeric primitives -/

/-- JS Math.round: round half toward positive infinity, Math.round x = ⌊x + 1/2⌋. -/
def jsRound (x : ℚ) : ℤ := ⌊x + 1/2⌋

/-- Truncation toward zero on rationals, as JS does when computing n % d. -/
def truncQ (x : ℚ) : ℤ := if x < 0 then -⌊-x⌋ else ⌊x⌋

/-- JS remainder a % b on numbers: a - b * trunc (a / b) (sign of the dividend). -/
def jsRem (a b : ℚ) : ℚ := a - b * truncQ (a / b)

/-! ## ColorModel

ImageProcessor.rgbToHsv (src/src/lib/imageProcessor.js, lines 244-275) and
HsvMapper.hsvToRgb (HsvMapper class, "Convert HSV to RGB for display").
Channels are modelled as integers carried into exact rational arithmetic. -/

/-- An HSV triple as produced by rgbToHsv: integer hue in degrees, integer
saturation and value percentages. -/
structure Hsv where
  h : ℤ
  s : ℤ
  v : ℤ
deriving DecidableEq, Repr

/-- ImageProcessor.rgbToHsv: divide channels by 255, take max/min/diff, pick
the hue sector from whichever channel attains the max (r checked first, then
g), apply the JS % 6 remainder in the red sector, scale hue by 60 rounding to
an integer, wrap negatives by +360, and round s and v to integer percents. -/
def rgbToHsv (r g b : ℤ) : Hsv :=
  let r' : ℚ := r / 255
  let g' : ℚ := g / 255
  let b' : ℚ := b / 255
  let maxc := max r' (max g' b')
  let minc := min r' (min g' b')
  let diff := maxc - minc
  let s : ℚ := if maxc = 0 then 0 else diff / maxc
  let v : ℚ := maxc
  let h0 : ℚ :=
    if diff = 0 then 0
    else if maxc = r' then jsRem ((g' - b') / diff) 6
    else if maxc = g' then (b' - r') / diff + 2
    else (r' - g') / diff + 4
  let h1 : ℤ := jsRound (h0 * 60)
  let h2 : ℤ := if h1 < 0 then h1 + 360 else h1
  ⟨h2, jsRound (s * 100), jsRound (v * 100)⟩

/-- An RGB triple of integer channels. -/
structure Rgb where
  r : ℤ
  g : ℤ
  b : ℤ
deriving DecidableEq, Repr

/-- HsvMapper.hsvToRgb: clamp the inputs to [0,360] and [0,100], normalize,
gray when s = 0, otherwise the standard six-sector interpolation with
i = ⌊h*6⌋, f = h*6 - i and the p/q/t values, then scale each channel by 255
and round. -/
def hsvToRgb (h0 s0 v0 : ℚ) : Rgb :=
  let h : ℚ := max 0 (min 360 h0) / 360
  let s : ℚ := max 0 (min 100 s0) / 100
  let v : ℚ := max 0 (min 100 v0) / 100
  if s = 0 then
    ⟨jsRound (v * 255), jsRound (v * 255), jsRound (v * 255)⟩
  else
    let i : ℤ := ⌊h * 6⌋
    let f : ℚ := h * 6 - i
    let p : ℚ := v * (1 - s)
    let q : ℚ := v * (1 - s * f)
    let t : ℚ := v * (1 - s * (1 - f))
    let m : ℤ := i % 6
    let rgb : ℚ × ℚ × ℚ :=
      if m = 0 then (v, t, p)
      else if m = 1 then (q, v, p)
      else if m = 2 then (p, v, t)
      else if m = 3 then (p, q, v)
      else if m = 4 then (t, p, v)
      else (v, p, q)
    ⟨jsRound (rgb.1 * 255), jsRound (rgb.2.1 * 255), jsRound (rgb.2.2 * 255)⟩

/-- The composed round trip on integer channels. -/
def roundTrip (r g b : ℤ) : Rgb :=
  let hsv := rgbToHsv r g b
  hsvToRgb hsv.h hsv.s hsv.v

/-! ### Derived channel forms

For integer HSV inputs the six sectors of hsvToRgb produce, per channel,
one of three rounded affine forms: the value form pvI, the p form ppI, and
the t form ttI w (the q form is ttI (60-w)). -/

/-- The value channel jsRound (v/100 * 255). -/
def pvI (v : ℤ) : ℤ := jsRound ((v:ℚ)/100 * 255)

/-- The p channel jsRound (v/100 * (1 - s/100) * 255). -/
def ppI (s v : ℤ) : ℤ := jsRound ((v:ℚ)/100 * (1 - (s:ℚ)/100) * 255)

/-- The t channel at integer sector offset w: jsRound of
v/100 * (1 - s/100 * (60-w)/60) * 255; ttI 0 = ppI and ttI 60 = pvI. -/
def ttI (w s v : ℤ) : ℤ := jsRound ((v:ℚ)/100 * (1 - (s:ℚ)/100 * ((60 - (w:ℚ))/60)) * 255)

/-- The sector table of hsvToRgb on integer inputs: sector i = h / 60 with
offset w = h % 60; the q channel is ttI (60 - w). -/
def sectorRgb (h s v : ℤ) : Rgb :=
  let i := h / 60
  let w := h % 60
  if i = 0 then ⟨pvI v, ttI w s v, ppI s v⟩
  else if i = 1 then ⟨ttI (60 - w) s v, pvI v, ppI s v⟩
  else if i = 2 then ⟨ppI s v, pvI v, ttI w s v⟩
  else if i = 3 then ⟨ppI s v, ttI (60 - w) s v, pvI v⟩
  else if i = 4 then ⟨ttI w s v, ppI s v, pvI v⟩
  else ⟨pvI v, ppI s v, ttI (60 - w) s v⟩

/-! ## PixelGrid (ImageProcessor)

The raster the processor works on is modelled as a pixel function plus its
dimensions; calculateAverageColor, applyPixelation, extractPixelData,
getPixelAt and getColumnPixels follow src/src/lib/imageProcessor.js. -/

/-- One grid element as built by extractPixelData. -/
structure Pixel where
  rgb : Rgb
  hsv : Hsv
  gridX : ℕ
  gridY : ℕ
  pixelX : ℕ
  pixelY : ℕ
deriving DecidableEq, Repr

/-- Math.ceil of a natural division, as used for the grid dimensions. -/
def jsCeilDiv (a b : ℕ) : ℕ := (⌈(a:ℚ)/(b:ℚ)⌉).toNat

/-- ImageProcessor.calculateAverageColor: arithmetic mean of every raster
pixel in the cell rectangle clamped to the raster bounds, rounded per
channel. -/
def calculateAverageColor (data : ℕ → ℕ → Rgb) (width height startX startY cellSize : ℕ) :
    Rgb :=
  let endX := min (startX + cellSize) width
  let endY := min (startY + cellSize) height
  let count := (endX - startX) * (endY - startY)
  let sumR := ∑ y ∈ Finset.Ico startY endY, ∑ x ∈ Finset.Ico startX endX, (data x y).r
  let sumG := ∑ y ∈ Finset.Ico startY endY, ∑ x ∈ Finset.Ico startX endX, (data x y).g
  let sumB := ∑ y ∈ Finset.Ico startY endY, ∑ x ∈ Finset.Ico startX endX, (data x y).b
  ⟨jsRound ((sumR:ℚ)/count), jsRound ((sumG:ℚ)/count), jsRound ((sumB:ℚ)/count)⟩

/-- ImageProcessor.applyPixelation viewed pointwise: after the loop every
raster position shows the average color of its grid cell (fillGridCell
paints the whole cellSize × cellSize square with that average; the faint
strokeRect border affects only the one-pixel boundary band of a cell and the
samples taken later sit strictly inside, so it is not modelled). -/
def applyPixelationAt (data : ℕ → ℕ → Rgb) (width height cellSize : ℕ) :
    ℕ → ℕ → Rgb := fun x y =>
  calculateAverageColor data width height (cellSize * (x / cellSize))
    (cellSize * (y / cellSize)) cellSize

/-- One entry of ImageProcessor.extractPixelData: sample the (pixelated)
raster at the cell center, clamped to the raster bounds, and derive HSV. -/
def gridCell (data : ℕ → ℕ → Rgb) (width height cellSize gridX gridY : ℕ) : Pixel :=
  let pixelX := gridX * cellSize
  let pixelY := gridY * cellSize
  let centerX := min (pixelX + cellSize / 2) (width - 1)
  let centerY := min (pixelY + cellSize / 2) (height - 1)
  let rgb := data centerX centerY
  ⟨rgb, rgbToHsv rgb.r rgb.g rgb.b, gridX, gridY, pixelX, pixelY⟩

/-- ImageProcessor.extractPixelData: the row-major grid of sampled cells,
with ceil (height / cellSize) rows and ceil (width / cellSize) columns. -/
def extractPixelData (data : ℕ → ℕ → Rgb) (width height cellSize : ℕ) :
    List (List Pixel) :=
  (List.range (jsCeilDiv height cellSize)).map fun gridY =>
    (List.range (jsCeilDiv width cellSize)).map fun gridX =>
      gridCell data width height cellSize gridX gridY

/-- The processing pipeline relevant to the grid data: applyPixelation paints
cell averages onto the canvas, then extractPixelData samples cell centers of
the painted canvas. -/
def pixelGrid (data : ℕ → ℕ → Rgb) (width height cellSize : ℕ) : List (List Pixel) :=
  extractPixelData (applyPixelationAt data width height cellSize) width height cellSize

/-- ImageProcessor.getPixelAt: floor-divide the coordinates by the cell size
and return the cell if in bounds, null otherwise. -/
def getPixelAt (grid : List (List Pixel)) (cellSize : ℕ) (x y : ℚ) : Option Pixel :=
  if grid.length = 0 then none
  else
    let gridX : ℤ := ⌊x / (cellSize:ℚ)⌋
    let gridY : ℤ := ⌊y / (cellSize:ℚ)⌋
    if 0 ≤ gridY ∧ gridY < (grid.length:ℤ) ∧ 0 ≤ gridX ∧
        gridX < ((grid.getD gridY.toNat []).length:ℤ) then
      (grid.getD gridY.toNat []).get? gridX.toNat
    else none

/-- ImageProcessor.getColumnPixels: every row entry at the column index under
x, top to bottom; a too-short row contributes the JS undefined, modelled as
none. -/
def getColumnPixels (grid : List (List Pixel)) (cellSize : ℕ) (x : ℚ) :
    List (Option Pixel) :=
  if grid.length = 0 then []
  else
    let gridX : ℤ := ⌊x / (cellSize:ℚ)⌋
    if 0 ≤ gridX ∧ gridX < ((grid.getD 0 []).length:ℤ) then
      grid.map fun row => row.get? gridX.toNat
    else []

/-! ## SoundMapper: HsvMapper frequency mapping -/

/-- The keys of HsvMapper.musicalScales. -/
inductive ScaleName where
  | chromatic
  | major
  | minor
  | pentatonic
  | blues
deriving DecidableEq, Repr

/-- HsvMapper.musicalScales: the semitone offsets of each scale. -/
def musicalScales : ScaleName → List ℕ
  | ScaleName.chromatic => [0, 1, 2, 3, 4, 5, 6, 7, 8, 9, 10, 11]
  | ScaleName.major => [0, 2, 4, 5, 7, 9, 11]
  | ScaleName.minor => [0, 2, 3, 5, 7, 8, 10]
  | ScaleName.pentatonic => [0, 2, 4, 7, 9]
  | ScaleName.blues => [0, 3, 5, 6, 7, 10]

/-- HsvMapper.setBaseFrequency: clamp the requested base to [100, 1000]. -/
def setBaseFrequency (frequency : ℚ) : ℚ := max 100 (min 1000 frequency)

/-- HsvMapper.mapHueToFrequency: normalize the hue, quantize to a scale
degree and an octave, and clamp the equal-temperament frequency to the
configured window 200..2000 Hz. The array read scale[scaleIndex %
scale.length] is modelled with the euclidean remainder, which agrees with
the JS remainder for the nonnegative indices produced by hue ≥ 0. The
frequency lives in ℝ because the source computes Math.pow(2, k/12). -/
noncomputable def mapHueToFrequency (currentScale : ScaleName) (baseFrequency : ℚ)
    (hue : ℚ) : ℝ :=
  let normalizedHue : ℚ := hue / 360
  let scale := musicalScales currentScale
  let scaleIndex : ℤ := ⌊normalizedHue * scale.length⌋
  let semitone : ℕ := scale.getD (scaleIndex % (scale.length : ℤ)).toNat 0
  let octave : ℤ := ⌊normalizedHue * 3⌋
  let frequency : ℝ := (baseFrequency : ℝ) *
    (2 : ℝ) ^ (((octave * 12 + (semitone : ℤ) : ℤ) : ℝ) / 12)
  max 200 (min 2000 frequency)

/-! ## VoicePool: AudioEngine -/

/-- Identity of a voice in the engine's Maps. The JS code keys voices by
note_<time>_<random> strings in playNote, by template strings such as "3_0"
in handleScanMove's startScanSound calls, and by the raw column number when
InteractiveCanvas calls stopScanSound; a number key and a string key never
collide in a JS Map, and the three shapes are pairwise distinct, so they are
distinct constructors. -/
inductive Key where
  | note (fresh : ℕ)
  | col (column : ℤ)
  | colIdx (column : ℤ) (index : ℕ)
deriving DecidableEq, Repr

/-- What AudioEngine.createSynth stores in this.synths per voice (the synth
object itself carries no further state the claims touch). -/
structure SynthData where
  frequency : ℚ
  volume : ℚ
  hsv : Hsv
deriving DecidableEq, Repr

/-- AudioEngine.currentMode. -/
inductive Mode where
  | single
  | scan
deriving DecidableEq, Repr

/-- JS Map.get on an association list. -/
def mapGet {α : Type} : List (Key × α) → Key → Option α
  | [], _ => none
  | (k', v') :: rest, k => if k' = k then some v' else mapGet rest k

/-- JS Map.set: replace in place when the key is present, else append. -/
def mapSet {α : Type} : List (Key × α) → Key → α → List (Key × α)
  | [], k, v => [(k, v)]
  | (k', v') :: rest, k, v =>
      if k' = k then (k, v) :: rest else (k', v') :: mapSet rest k v

/-- JS Map.delete: drop the entry of the key (keys are unique in a Map, so
dropping every match agrees with dropping the one match). -/
def mapDelete {α : Type} : List (Key × α) → Key → List (Key × α)
  | [], _ => []
  | (k', v') :: rest, k =>
      if k' = k then mapDelete rest k else (k', v') :: mapDelete rest k

/-- Map.delete on the scanSounds key set (its values, the synth objects,
already live in synths). -/
def listDelete : List Key → Key → List Key
  | [], _ => []
  | k' :: rest, k => if k' = k then listDelete rest k else k' :: listDelete rest k

/-- Map.set on the scanSounds key set. -/
def listInsert (l : List Key) (k : Key) : List Key :=
  if k ∈ l then l else l ++ [k]

/-- The AudioEngine state: the init flag, mode, master volume, whether the
master gain and reverb nodes were built, the synths Map and the scanSounds
key set. -/
structure EngineState where
  isInitialized : Bool
  currentMode : Mode
  masterVolume : ℚ
  hasMasterGain : Bool
  hasReverb : Bool
  synths : List (Key × SynthData)
  scanSounds : List Key
deriving DecidableEq, Repr

/-- The state the AudioEngine constructor builds. -/
def freshEngine : EngineState :=
  ⟨false, Mode.single, 3/10, false, false, [], []⟩

/-- AudioEngine.init with the success of Tone.start() as a parameter: on
success the master gain and reverb are created; on failure the catch block
runs and sets isInitialized anyway, leaving the audio graph unbuilt. -/
def init (success : Bool) (s : EngineState) : EngineState :=
  if success then
    { s with hasMasterGain := true, hasReverb := true, isInitialized := true }
  else
    { s with isInitialized := true }

/-- AudioEngine.hsvToFrequency: hue 0..360 mapped linearly onto 200..2000 Hz. -/
def hsvToFrequency (hue : ℚ) : ℚ :=
  let minFreq : ℚ := 200
  let maxFreq : ℚ := 2000
  minFreq + hue / 360 * (maxFreq - minFreq)

/-- AudioEngine.hsvToVolume: value 0..100 mapped onto 0.1..0.8. -/
def hsvToVolume (value : ℚ) : ℚ := 1/10 + value / 100 * (7/10)

/-- AudioEngine.createSynth: null when not initialized; otherwise build the
synth (its envelope and waveform only configure the sound object), store the
voice under the id, and report success. -/
def createSynth (s : EngineState) (hsv : Hsv) (id : Key) : EngineState × Bool :=
  if s.isInitialized = false then (s, false)
  else
    let frequency := hsvToFrequency hsv.h
    let volume := hsvToVolume hsv.v
    ({ s with synths := mapSet s.synths id ⟨frequency, volume, hsv⟩ }, true)

/-- AudioEngine.cleanupSynth: dispose and remove the voice when present,
else do nothing. -/
def cleanupSynth (s : EngineState) (id : Key) : EngineState :=
  match mapGet s.synths id with
  | some _ => { s with synths := mapDelete s.synths id }
  | none => s

/-- AudioEngine.stopScanSound: when a voice exists under the key, release it
and clean it up; then delete the key from scanSounds unconditionally. -/
def stopScanSound (s : EngineState) (columnId : Key) : EngineState :=
  let s1 := match mapGet s.synths columnId with
    | some _ => cleanupSynth s columnId
    | none => s
  { s1 with scanSounds := listDelete s1.scanSounds columnId }

/-- AudioEngine.stopAllScanSounds: stopScanSound for every key in
scanSounds, then clear the set. -/
def stopAllScanSounds (s : EngineState) : EngineState :=
  let s1 := s.scanSounds.foldl stopScanSound s
  { s1 with scanSounds := [] }

/-- AudioEngine.startScanSound: guarded by initialization and scan mode;
stops any voice of the column, then creates and registers the new one. -/
def startScanSound (s : EngineState) (hsv : Hsv) (columnId : Key) : EngineState :=
  if s.isInitialized = false ∨ s.currentMode ≠ Mode.scan then s
  else
    let s1 := stopScanSound s columnId
    let p := createSynth s1 hsv columnId
    if p.2 then { p.1 with scanSounds := listInsert p.1.scanSounds columnId } else p.1

/-- AudioEngine.playNote: guarded by initialization; the default duration
comes from the brightness, the voice is created under a fresh note id and
triggered, and a cleanup of that id is scheduled after
calculatedDuration * 1000 + 500 ms (returned as a pending event, since
setTimeout fires it only later). -/
def playNote (s : EngineState) (hsv : Hsv) (fresh : ℕ) (duration : Option ℚ) :
    EngineState × Option (Key × ℚ) :=
  if s.isInitialized = false then (s, none)
  else
    let calculatedDuration := duration.getD (1/10 + (100 - (hsv.v : ℚ)) / 100 * (3/10))
    let id := Key.note fresh
    let p := createSynth s hsv id
    if p.2 then (p.1, some (id, calculatedDuration * 1000 + 500)) else (p.1, none)

/-- AudioEngine.setMode: record the mode; switching to single stops all scan
sounds. -/
def setMode (s : EngineState) (mode : Mode) : EngineState :=
  let s1 := { s with currentMode := mode }
  if mode = Mode.single then stopAllScanSounds s1 else s1

/-! ## Interaction: InteractiveCanvas scan logic -/

/-- One setTimeout callback scheduled by handleScanMove: it captured the
pixel's hsv and row index, while the column half of the key is read from
this.scanColumn only when the timeout fires. -/
structure PendingTask where
  index : ℕ
  delayMs : ℚ
  hsv : Hsv
deriving DecidableEq, Repr

/-- The canvas-side scan state: the active column, the audio engine, and the
scheduled but not yet fired staggered onsets. -/
structure CanvasState where
  scanColumn : ℤ
  engine : EngineState
  pending : List PendingTask
deriving DecidableEq, Repr

/-- The stride of handleScanMove: Math.max(1, Math.floor(count / 5)) with
maxSimultaneousSounds = 5. -/
def scanStep (count : ℕ) : ℕ := max 1 (count / 5)

/-- The batch handleScanMove schedules over a column: one timeout per index
holding a pixel with index a multiple of the stride, delayed by
(index / step) * 50 ms (exact in ℕ because step divides every selected
index). -/
def scanTasks (pixels : List (Option Hsv)) : List PendingTask :=
  let step := scanStep pixels.length
  (List.range pixels.length).filterMap fun index =>
    match pixels.getD index none with
    | some hsv =>
        if index % step = 0 then some ⟨index, ((index / step : ℕ) : ℚ) * 50, hsv⟩
        else none
    | none => none

/-- InteractiveCanvas.handleScanMove: nothing on the same column; on a
column change, stop the previous column passing the raw column number as
the key, set scanColumn to the new column, and schedule the staggered batch
for the new column's pixels (newColumn stands for
Math.floor(p.mouseX / pixelSize) and columnPixels for
getColumnPixels(p.mouseX), both computed from the pointer event). -/
def handleScanMove (c : CanvasState) (newColumn : ℤ)
    (columnPixels : List (Option Hsv)) : CanvasState :=
  if newColumn = c.scanColumn then c
  else
    let e1 := if 0 ≤ c.scanColumn then stopScanSound c.engine (Key.col c.scanColumn)
      else c.engine
    { scanColumn := newColumn, engine := e1,
      pending := c.pending ++ scanTasks columnPixels }

/-- One staggered timeout firing: the template literal key is built from the
scanColumn current at fire time, while the hsv was captured at schedule
time. -/
def firePending (c : CanvasState) (t : PendingTask) : CanvasState :=
  { c with engine := startScanSound c.engine t.hsv (Key.colIdx c.scanColumn t.index) }

/-- Every scheduled timeout firing in order, with no pointer event in
between. -/
def fireAll (c : CanvasState) : CanvasState :=
  { c.pending.foldl firePending c with pending := [] }

/-- InteractiveCanvas.handleScanRelease: stop the active column by its raw
number and reset the column to -1. -/
def handleScanRelease (c : CanvasState) : CanvasState :=
  if 0 ≤ c.scanColumn then
    { c with engine := stopScanSound c.engine (Key.col c.scanColumn),
             scanColumn := -1 }
  else c

/-! ## Theorems -/

theorem jsRound_le (x : ℚ) : (jsRound x : ℚ) ≤ x + 1/2 := by
  simpa [jsRound] using Int.floor_le (x + 1/2)

theorem lt_jsRound (x : ℚ) : x - 1/2 < (jsRound x : ℚ) := by
  have h := Int.lt_floor_add_one (x + 1/2)
  have : (jsRound x : ℚ) = (⌊x + 1/2⌋ : ℚ) := by simp [jsRound]
  rw [this]; linarith

theorem abs_jsRound_sub_le (x : ℚ) : |(jsRound x : ℚ) - x| ≤ 1/2 := by
  have h1 := jsRound_le x
  have h2 := lt_jsRound x
  rw [abs_le]; constructor <;> linarith

theorem jsRound_nonneg (x : ℚ) (hx : 0 ≤ x) : 0 ≤ jsRound x := by
  have : (0:ℚ) ≤ x + 1/2 := by linarith
  exact Int.le_floor.2 (by exact_mod_cast this)

theorem jsRound_intCast (n : ℤ) : jsRound (n : ℚ) = n := by
  unfold jsRound
  rw [add_comm, Int.floor_add_int]
  norm_num

theorem jsRound_mono {x y : ℚ} (h : x ≤ y) : jsRound x ≤ jsRound y :=
  Int.floor_le_floor (by linarith)

theorem jsRound_add_int (x : ℚ) (n : ℤ) : jsRound (x + n) = jsRound x + n := by
  unfold jsRound
  rw [show x + (n:ℚ) + 1/2 = x + 1/2 + n by ring, Int.floor_add_int]

theorem jsRem_small (a : ℚ) (h1 : -6 < a) (h2 : a < 6) : jsRem a 6 = a := by
  have ht : truncQ (a / 6) = 0 := by
    unfold truncQ
    by_cases hneg : a / 6 < 0
    · simp only [hneg, if_true]
      have hlt : -a / 6 < 1 := by linarith
      have hge : (0:ℚ) ≤ -a/6 := by
        have : a / 6 < 0 := hneg
        linarith
      have : ⌊-a/6⌋ = 0 := by
        rw [Int.floor_eq_zero_iff]
        constructor
        · simpa using hge
        · simpa using hlt
      rw [show -(a/6) = -a/6 by ring, this]; simp
    · simp only [hneg, if_false]
      push_neg at hneg
      have hlt : a / 6 < 1 := by linarith
      rw [Int.floor_eq_zero_iff]
      constructor
      · simpa using hneg
      · simpa using hlt
  simp [jsRem, ht]

theorem ttI_zero (s v : ℤ) : ttI 0 s v = ppI s v := by
  unfold ttI ppI
  congr 1
  push_cast
  ring

theorem ttI_sixty (s v : ℤ) : ttI 60 s v = pvI v := by
  unfold ttI pvI
  congr 1
  push_cast
  ring

theorem hsvToRgb_eq_sectorRgb (h s v : ℤ) (hh0 : 0 ≤ h) (hh1 : h < 360)
    (hs1 : 1 ≤ s) (hs2 : s ≤ 100) (hv0 : 0 ≤ v) (hv1 : v ≤ 100) :
    hsvToRgb (h:ℚ) (s:ℚ) (v:ℚ) = sectorRgb h s v := by
  have hch : max 0 (min 360 ((h:ℤ):ℚ)) = (h:ℚ) := by
    rw [min_eq_right (by exact_mod_cast hh1.le.trans (by norm_num)),
      max_eq_right (by exact_mod_cast hh0)]
  have hcs : max 0 (min 100 ((s:ℤ):ℚ)) = (s:ℚ) := by
    rw [min_eq_right (by exact_mod_cast hs2), max_eq_right (by positivity)]
  have hcv : max 0 (min 100 ((v:ℤ):ℚ)) = (v:ℚ) := by
    rw [min_eq_right (by exact_mod_cast hv1), max_eq_right (by exact_mod_cast hv0)]
  have hsne : ¬ ((s:ℚ)/100 = 0) := by
    rw [div_eq_zero_iff]
    push_neg
    constructor
    · exact_mod_cast (by omega : s ≠ 0)
    · norm_num
  have hfl : (⌊(h:ℚ)/360*6⌋ : ℤ) = h / 60 := by
    rw [show ((h:ℚ)/360*6 : ℚ) = ((h:ℤ):ℚ)/((60:ℕ):ℚ) by push_cast; ring]
    exact Rat.floor_intCast_div_natCast h 60
  simp only [hsvToRgb, sectorRgb]
  rw [hch, hcs, hcv, if_neg hsne, hfl]
  rw [show h % 60 = h - 60 * (h / 60) by omega]
  have hi0 : 0 ≤ h / 60 := by omega
  have hi5 : h / 60 ≤ 5 := by omega
  set i := h / 60 with hidef
  interval_cases i
  all_goals norm_num [pvI, ppI, ttI, Rgb.mk.injEq]
  all_goals exact congrArg jsRound (by ring)

theorem hsvToRgb_gray (h v : ℤ) (hv0 : 0 ≤ v) (hv1 : v ≤ 100) :
    hsvToRgb (h:ℚ) ((0:ℤ):ℚ) (v:ℚ) = ⟨pvI v, pvI v, pvI v⟩ := by
  have hcv : max 0 (min 100 ((v:ℤ):ℚ)) = (v:ℚ) := by
    rw [min_eq_right (by exact_mod_cast hv1), max_eq_right (by exact_mod_cast hv0)]
  have hs0 : max 0 (min 100 (((0:ℤ):ℚ))) / 100 = 0 := by norm_num
  simp only [hsvToRgb]
  rw [hs0, if_pos rfl, hcv]
  norm_num [pvI, Rgb.mk.injEq]

/-! ### Rounding error bounds for the reconstructed channels

With V = jsRound (mx*100/255) and S = jsRound (d*100/mx) the three forms
reproduce, respectively, the maximum channel within 1, and the minimum and
middle channels within 3 units. -/

theorem pv_bound (mx : ℤ) (h1 : mx ≤ 255) :
    |pvI (jsRound ((mx:ℚ)*100/255)) - mx| ≤ 1 := by
  set V : ℤ := jsRound ((mx:ℚ)*100/255) with hVdef
  have hV : |(V:ℚ) - (mx:ℚ)*100/255| ≤ 1/2 := hVdef ▸ abs_jsRound_sub_le _
  have hP : |(pvI V : ℚ) - (V:ℚ)/100*255| ≤ 1/2 := abs_jsRound_sub_le _
  have hAm : |(V:ℚ)/100*255 - mx| ≤ 51/40 := by
    have he : (V:ℚ)/100*255 - mx = (255/100) * ((V:ℚ) - (mx:ℚ)*100/255) := by ring
    rw [he, abs_mul, abs_of_pos (by norm_num : (0:ℚ) < 255/100)]
    nlinarith [hV]
  have hfin : |((pvI V - mx : ℤ) : ℚ)| < 2 := by
    push_cast
    calc |(pvI V : ℚ) - mx| ≤ |(pvI V : ℚ) - (V:ℚ)/100*255| + |(V:ℚ)/100*255 - (mx:ℚ)| :=
          abs_sub_le _ _ _
      _ < 2 := by linarith
  have h2 : |pvI V - mx| < 2 := by exact_mod_cast hfin
  omega

set_option maxHeartbeats 1000000 in
theorem tt_bound (mx d k w : ℤ) (hd : 1 ≤ d) (hdm : d ≤ mx) (hmx : mx ≤ 255)
    (hk0 : 0 ≤ k) (hkd : k ≤ d) (hw0 : 0 ≤ w) (hw1 : w ≤ 60)
    (hww : |(w:ℚ) - 60*k/d| ≤ 1/2) :
    |ttI w (jsRound ((d:ℚ)*100/mx)) (jsRound ((mx:ℚ)*100/255)) - (mx - d + k)| ≤ 3 := by
  set V : ℤ := jsRound ((mx:ℚ)*100/255) with hVdef
  set S : ℤ := jsRound ((d:ℚ)*100/mx) with hSdef
  have hmxq : (1:ℚ) ≤ (mx:ℚ) := by exact_mod_cast hd.trans hdm
  have hmxq0 : (0:ℚ) < (mx:ℚ) := by linarith
  have hmxq255 : (mx:ℚ) ≤ 255 := by exact_mod_cast hmx
  have hdq : (1:ℚ) ≤ (d:ℚ) := by exact_mod_cast hd
  have hdq0 : (0:ℚ) < (d:ℚ) := by linarith
  have hdmq : (d:ℚ) ≤ (mx:ℚ) := by exact_mod_cast hdm
  have hkq0 : (0:ℚ) ≤ (k:ℚ) := by exact_mod_cast hk0
  have hkdq : (k:ℚ) ≤ (d:ℚ) := by exact_mod_cast hkd
  have hV : |(V:ℚ) - (mx:ℚ)*100/255| ≤ 1/2 := hVdef ▸ abs_jsRound_sub_le _
  have hS : |(S:ℚ) - (d:ℚ)*100/mx| ≤ 1/2 := hSdef ▸ abs_jsRound_sub_le _
  have hV0' : (0:ℤ) ≤ V := hVdef ▸ jsRound_nonneg _ (by positivity)
  have hV100' : V ≤ 100 := by
    have harg : (mx:ℚ)*100/255 ≤ ((100:ℤ):ℚ) := by
      rw [div_le_iff₀ (by norm_num : (0:ℚ) < 255)]
      push_cast
      nlinarith [hmxq255]
    have h2 := jsRound_mono harg
    rw [jsRound_intCast] at h2
    exact hVdef ▸ h2
  have hV100 : (V:ℚ) ≤ 100 := by exact_mod_cast hV100'
  have hS0' : (0:ℤ) ≤ S := hSdef ▸ jsRound_nonneg _ (by positivity)
  have hS100' : S ≤ 100 := by
    have harg : (d:ℚ)*100/mx ≤ ((100:ℤ):ℚ) := by
      rw [div_le_iff₀ hmxq0]
      push_cast
      nlinarith [hdmq, hmxq0]
    have h2 := jsRound_mono harg
    rw [jsRound_intCast] at h2
    exact hSdef ▸ h2
  have hS0 : (0:ℚ) ≤ (S:ℚ) := by exact_mod_cast hS0'
  have hS100 : (S:ℚ) ≤ 100 := by exact_mod_cast hS100'
  set A : ℚ := (V:ℚ)/100*255 with hAdef
  set B : ℚ := (S:ℚ)/100 with hBdef
  set u : ℚ := (k:ℚ)/d with hudef
  have hA0 : 0 ≤ A := by positivity
  have hA255 : A ≤ 255 := by rw [hAdef]; nlinarith [hV100]
  have hB0 : 0 ≤ B := by positivity
  have hB1 : B ≤ 1 := by rw [hBdef]; linarith
  have hu0 : 0 ≤ u := by positivity
  have hu1 : u ≤ 1 := by rw [hudef, div_le_one hdq0]; exact hkdq
  have hAm : |A - mx| ≤ 51/40 := by
    have he : A - mx = (255/100) * ((V:ℚ) - (mx:ℚ)*100/255) := by rw [hAdef]; ring
    rw [he, abs_mul, abs_of_pos (by norm_num : (0:ℚ) < 255/100)]
    nlinarith [hV]
  have hBm : |B * mx - d| ≤ (mx:ℚ)/200 := by
    have he : B * mx - d = ((mx:ℚ)/100) * ((S:ℚ) - (d:ℚ)*100/mx) := by
      rw [hBdef]; field_simp; ring
    rw [he, abs_mul, abs_of_pos (by positivity : (0:ℚ) < (mx:ℚ)/100)]
    have h3 := mul_le_mul_of_nonneg_left hS (show (0:ℚ) ≤ (mx:ℚ)/100 by positivity)
    linarith
  have hwu : |(w:ℚ)/60 - u| ≤ 1/120 := by
    have he : (w:ℚ)/60 - u = (1/60) * ((w:ℚ) - 60*k/d) := by rw [hudef]; ring
    rw [he, abs_mul, abs_of_pos (by norm_num : (0:ℚ) < 1/60)]
    linarith [hww]
  have htt : ttI w S V = jsRound (A * (1 - B * ((60 - (w:ℚ))/60))) := by
    unfold ttI
    exact congrArg jsRound (by rw [hAdef, hBdef]; ring)
  have hQ : |(ttI w S V : ℚ) - A * (1 - B * ((60 - (w:ℚ))/60))| ≤ 1/2 := by
    rw [htt]; exact abs_jsRound_sub_le _
  have hk_du : (k:ℚ) = d * u := by rw [hudef]; field_simp
  have hmain : |A * (1 - B * ((60 - (w:ℚ))/60)) - ((mx:ℚ) - d + k)| ≤ 17/5 := by
    have hdecomp : A * (1 - B * ((60 - (w:ℚ))/60)) - ((mx:ℚ) - d + k)
        = ((A - mx)*(1-B) - (B*mx - d)) * (1 - u) + (A - mx) * u + (A*B) * ((w:ℚ)/60 - u) := by
      rw [hk_du]; ring
    rw [hdecomp]
    have hinner : |(A - mx)*(1-B) - (B*mx - d)| ≤ (51/40)*(1-B) + (mx:ℚ)/200 := by
      calc |(A - mx)*(1-B) - (B*mx - d)| ≤ |(A - mx)*(1-B)| + |B*mx - d| := abs_sub _ _
        _ ≤ (51/40)*(1-B) + (mx:ℚ)/200 := by
            rw [abs_mul, abs_of_nonneg (by linarith : (0:ℚ) ≤ 1 - B)]
            nlinarith [hAm, hBm, hB1, abs_nonneg (A - (mx:ℚ))]
    have h1 : |((A - mx)*(1-B) - (B*mx - d)) * (1 - u)| ≤ ((51/40)*(1-B) + (mx:ℚ)/200) * (1 - u) := by
      rw [abs_mul, abs_of_nonneg (by linarith : (0:ℚ) ≤ 1 - u)]
      nlinarith [hinner, hu1, abs_nonneg ((A - mx)*(1-B) - (B*mx - d))]
    have h2 : |(A - mx) * u| ≤ (51/40) * u := by
      rw [abs_mul, abs_of_nonneg hu0]
      nlinarith [hAm, hu0, abs_nonneg (A - (mx:ℚ))]
    have h3 : |(A*B) * ((w:ℚ)/60 - u)| ≤ 255 * B * (1/120) := by
      rw [abs_mul]
      have hab : |A*B| = A * B := abs_of_nonneg (by positivity)
      rw [hab]
      nlinarith [hwu, hA255, hB0, abs_nonneg ((w:ℚ)/60 - u), mul_le_mul_of_nonneg_right hA255 hB0]
    have htri : |((A - mx)*(1-B) - (B*mx - d)) * (1 - u) + (A - mx) * u + (A*B) * ((w:ℚ)/60 - u)|
        ≤ |((A - mx)*(1-B) - (B*mx - d)) * (1 - u)| + |(A - mx) * u| + |(A*B) * ((w:ℚ)/60 - u)| := by
      calc |((A - mx)*(1-B) - (B*mx - d)) * (1 - u) + (A - mx) * u + (A*B) * ((w:ℚ)/60 - u)|
          ≤ |((A - mx)*(1-B) - (B*mx - d)) * (1 - u) + (A - mx) * u| + |(A*B) * ((w:ℚ)/60 - u)| :=
            abs_add _ _
        _ ≤ _ := by
            have h4 := abs_add (((A - mx)*(1-B) - (B*mx - d)) * (1 - u)) ((A - mx) * u)
            linarith
    have hfinal : ((51/40)*(1-B) + (mx:ℚ)/200) * (1 - u) + (51/40) * u + 255 * B * (1/120) ≤ 17/5 := by
      nlinarith [mul_nonneg (sub_nonneg.2 hB1) hu0, mul_nonneg hB0 hu0,
        mul_nonneg (sub_nonneg.2 hu1) (sub_nonneg.2 (show (mx:ℚ) ≤ 255 from hmxq255)),
        mul_nonneg (sub_nonneg.2 hB1) (sub_nonneg.2 hu1)]
    linarith
  have hfin : |((ttI w S V - (mx - d + k) : ℤ) : ℚ)| < 4 := by
    push_cast
    calc |(ttI w S V : ℚ) - ((mx:ℚ) - d + k)|
        ≤ |(ttI w S V : ℚ) - A * (1 - B * ((60 - (w:ℚ))/60))|
          + |A * (1 - B * ((60 - (w:ℚ))/60)) - ((mx:ℚ) - d + k)| := abs_sub_le _ _ _
      _ < 4 := by linarith
  have h5 : |ttI w S V - (mx - d + k)| < 4 := by exact_mod_cast hfin
  omega

theorem pp_bound (mx d : ℤ) (hd : 1 ≤ d) (hdm : d ≤ mx) (hmx : mx ≤ 255) :
    |ppI (jsRound ((d:ℚ)*100/mx)) (jsRound ((mx:ℚ)*100/255)) - (mx - d)| ≤ 3 := by
  have h := tt_bound mx d 0 0 hd hdm hmx le_rfl (by omega) le_rfl (by norm_num)
    (by norm_num)
  rw [ttI_zero] at h
  simpa using h

/-! ### Evaluation of rgbToHsv in the six channel orderings

The source picks the hue sector from whichever channel attains the max
(r checked first, then g), so ties follow that priority; the saturation and
value outputs are jsRound (d*100/mx) and jsRound (mx*100/255). -/

theorem rgbToHsv_case1 (r g b : ℤ) (hb0 : 0 ≤ b) (hbg : b ≤ g) (hgr : g ≤ r) (hbr : b < r) :
    rgbToHsv r g b =
      ⟨jsRound (60*((g:ℚ) - b)/((r:ℚ) - b)),
       jsRound (((r:ℚ) - b)*100/r),
       jsRound ((r:ℚ)*100/255)⟩ := by
  have hrb : (0:ℚ) < (r:ℚ) - b := by
    have h1 : (b:ℚ) < r := by exact_mod_cast hbr
    linarith
  have hr0 : (0:ℚ) < (r:ℚ) := by
    have h1 : (0:ℚ) ≤ (b:ℚ) := by exact_mod_cast hb0
    linarith
  have hbgq : (b:ℚ) ≤ g := by exact_mod_cast hbg
  have hgrq : (g:ℚ) ≤ r := by exact_mod_cast hgr
  have hmax : max ((r:ℚ)/255) (max ((g:ℚ)/255) ((b:ℚ)/255)) = (r:ℚ)/255 := by
    rw [max_eq_left (by gcongr : (b:ℚ)/255 ≤ (g:ℚ)/255)]
    exact max_eq_left (by gcongr)
  have hmin : min ((r:ℚ)/255) (min ((g:ℚ)/255) ((b:ℚ)/255)) = (b:ℚ)/255 := by
    rw [min_eq_right (by gcongr : (b:ℚ)/255 ≤ (g:ℚ)/255)]
    exact min_eq_right (by gcongr)
  have hdpos : (0:ℚ) < (r:ℚ)/255 - (b:ℚ)/255 := by
    rw [div_sub_div_same]; positivity
  have hdne : ¬((r:ℚ)/255 - (b:ℚ)/255 = 0) := by linarith
  have hm0ne : ¬((r:ℚ)/255 = 0) := (div_pos hr0 (by norm_num)).ne'
  have hfrac : ((g:ℚ)/255 - (b:ℚ)/255) / ((r:ℚ)/255 - (b:ℚ)/255) = ((g:ℚ) - b)/((r:ℚ) - b) := by
    rw [div_sub_div_same, div_sub_div_same, div_div_div_cancel_right₀]
    norm_num
  have hx0 : (0:ℚ) ≤ ((g:ℚ) - b)/((r:ℚ) - b) := div_nonneg (by linarith) (by linarith)
  have hx1 : ((g:ℚ) - b)/((r:ℚ) - b) ≤ 1 := by
    rw [div_le_one hrb]; linarith
  have hrem : jsRem (((g:ℚ)/255 - (b:ℚ)/255) / ((r:ℚ)/255 - (b:ℚ)/255)) 6
      = ((g:ℚ) - b)/((r:ℚ) - b) := by
    rw [hfrac]
    exact jsRem_small _ (by linarith) (by linarith)
  have hwrap : ¬(jsRound (((g:ℚ) - b)/((r:ℚ) - b) * 60) < 0) := by
    push_neg
    exact jsRound_nonneg _ (by nlinarith [hx0])
  simp only [rgbToHsv]
  rw [hmax, hmin, if_neg hdne, if_pos rfl, hrem, if_neg hm0ne, if_neg hwrap]
  congr 1
  · exact congrArg jsRound (by ring)
  · refine congrArg jsRound ?_
    rw [div_sub_div_same, div_div_div_cancel_right₀]
    · ring
    · norm_num
  · exact congrArg jsRound (by ring)

theorem rgbToHsv_case2 (r g b : ℤ) (hg0 : 0 ≤ g) (hgb : g < b) (hbr : b ≤ r) :
    rgbToHsv r g b =
      ⟨(if jsRound (60*((g:ℚ) - b)/((r:ℚ) - g)) < 0
          then jsRound (60*((g:ℚ) - b)/((r:ℚ) - g)) + 360
          else jsRound (60*((g:ℚ) - b)/((r:ℚ) - g))),
       jsRound (((r:ℚ) - g)*100/r),
       jsRound ((r:ℚ)*100/255)⟩ := by
  have hgbq : (g:ℚ) < b := by exact_mod_cast hgb
  have hbrq : (b:ℚ) ≤ r := by exact_mod_cast hbr
  have hg0q : (0:ℚ) ≤ (g:ℚ) := by exact_mod_cast hg0
  have hrg : (0:ℚ) < (r:ℚ) - g := by linarith
  have hr0 : (0:ℚ) < (r:ℚ) := by linarith
  have hmax : max ((r:ℚ)/255) (max ((g:ℚ)/255) ((b:ℚ)/255)) = (r:ℚ)/255 := by
    rw [max_eq_right (by gcongr : (g:ℚ)/255 ≤ (b:ℚ)/255)]
    exact max_eq_left (by gcongr)
  have hmin : min ((r:ℚ)/255) (min ((g:ℚ)/255) ((b:ℚ)/255)) = (g:ℚ)/255 := by
    rw [min_eq_left (by gcongr : (g:ℚ)/255 ≤ (b:ℚ)/255)]
    exact min_eq_right (by gcongr <;> linarith)
  have hdpos : (0:ℚ) < (r:ℚ)/255 - (g:ℚ)/255 := by
    rw [div_sub_div_same]; positivity
  have hdne : ¬((r:ℚ)/255 - (g:ℚ)/255 = 0) := by linarith
  have hm0ne : ¬((r:ℚ)/255 = 0) := (div_pos hr0 (by norm_num)).ne'
  have hfrac : ((g:ℚ)/255 - (b:ℚ)/255) / ((r:ℚ)/255 - (g:ℚ)/255) = ((g:ℚ) - b)/((r:ℚ) - g) := by
    rw [div_sub_div_same, div_sub_div_same, div_div_div_cancel_right₀]
    norm_num
  have hx0 : -1 ≤ ((g:ℚ) - b)/((r:ℚ) - g) := by
    rw [neg_le, ← neg_div]
    rw [div_le_one hrg]
    linarith
  have hx1 : ((g:ℚ) - b)/((r:ℚ) - g) ≤ 0 := div_nonpos_of_nonpos_of_nonneg (by linarith) (by linarith)
  have hrem : jsRem (((g:ℚ)/255 - (b:ℚ)/255) / ((r:ℚ)/255 - (g:ℚ)/255)) 6
      = ((g:ℚ) - b)/((r:ℚ) - g) := by
    rw [hfrac]
    exact jsRem_small _ (by linarith) (by linarith)
  simp only [rgbToHsv]
  rw [hmax, hmin, if_neg hdne, if_pos rfl, hrem, if_neg hm0ne]
  rw [show ((g:ℚ) - b)/((r:ℚ) - g) * 60 = 60*((g:ℚ) - b)/((r:ℚ) - g) by ring]
  congr 1
  · refine congrArg jsRound ?_
    rw [div_sub_div_same, div_div_div_cancel_right₀]
    · ring
    · norm_num
  · exact congrArg jsRound (by ring)

theorem rgbToHsv_case3 (r g b : ℤ) (hr0 : 0 ≤ r) (hrb : r ≤ b) (hbg : b ≤ g) (hrg : r < g) :
    rgbToHsv r g b =
      ⟨jsRound (60*((b:ℚ) - r)/((g:ℚ) - r)) + 120,
       jsRound (((g:ℚ) - r)*100/g),
       jsRound ((g:ℚ)*100/255)⟩ := by
  have hrbq : (r:ℚ) ≤ b := by exact_mod_cast hrb
  have hbgq : (b:ℚ) ≤ g := by exact_mod_cast hbg
  have hrgq : (r:ℚ) < g := by exact_mod_cast hrg
  have hr0q : (0:ℚ) ≤ (r:ℚ) := by exact_mod_cast hr0
  have hgr : (0:ℚ) < (g:ℚ) - r := by linarith
  have hg0 : (0:ℚ) < (g:ℚ) := by linarith
  have hmax : max ((r:ℚ)/255) (max ((g:ℚ)/255) ((b:ℚ)/255)) = (g:ℚ)/255 := by
    rw [max_eq_left (by gcongr : (b:ℚ)/255 ≤ (g:ℚ)/255)]
    exact max_eq_right (by gcongr)
  have hmin : min ((r:ℚ)/255) (min ((g:ℚ)/255) ((b:ℚ)/255)) = (r:ℚ)/255 := by
    rw [min_eq_right (by gcongr : (b:ℚ)/255 ≤ (g:ℚ)/255)]
    exact min_eq_left (by gcongr)
  have hdpos : (0:ℚ) < (g:ℚ)/255 - (r:ℚ)/255 := by
    rw [div_sub_div_same]; positivity
  have hdne : ¬((g:ℚ)/255 - (r:ℚ)/255 = 0) := by linarith
  have hm0ne : ¬((g:ℚ)/255 = 0) := (div_pos hg0 (by norm_num)).ne'
  have hrne : ¬((g:ℚ)/255 = (r:ℚ)/255) := by
    intro hcon
    rw [div_eq_div_iff (by norm_num) (by norm_num)] at hcon
    have : (g:ℚ) = r := by linarith
    linarith
  have hfrac : ((b:ℚ)/255 - (r:ℚ)/255) / ((g:ℚ)/255 - (r:ℚ)/255) = ((b:ℚ) - r)/((g:ℚ) - r) := by
    rw [div_sub_div_same, div_sub_div_same, div_div_div_cancel_right₀]
    norm_num
  have hshift : (((b:ℚ) - r)/((g:ℚ) - r) + 2) * 60 = 60*((b:ℚ) - r)/((g:ℚ) - r) + ((120:ℤ):ℚ) := by
    push_cast; ring
  have hwrap : ¬(jsRound (60*((b:ℚ) - r)/((g:ℚ) - r)) + 120 < 0) := by
    push_neg
    have h2 : 0 ≤ jsRound (60*((b:ℚ) - r)/((g:ℚ) - r)) :=
      jsRound_nonneg _ (div_nonneg (by linarith) (by linarith))
    omega
  simp only [rgbToHsv]
  rw [hmax, hmin, if_neg hdne, if_neg hrne, if_pos rfl, hfrac, if_neg hm0ne,
    hshift, jsRound_add_int, if_neg hwrap]
  congr 1
  · refine congrArg jsRound ?_
    rw [div_sub_div_same, div_div_div_cancel_right₀]
    · ring
    · norm_num
  · exact congrArg jsRound (by ring)

theorem rgbToHsv_case4 (r g b : ℤ) (hb0 : 0 ≤ b) (hbr : b < r) (hrg : r < g) :
    rgbToHsv r g b =
      ⟨jsRound (60*((b:ℚ) - r)/((g:ℚ) - b)) + 120,
       jsRound (((g:ℚ) - b)*100/g),
       jsRound ((g:ℚ)*100/255)⟩ := by
  have hbrq : (b:ℚ) < r := by exact_mod_cast hbr
  have hrgq : (r:ℚ) < g := by exact_mod_cast hrg
  have hb0q : (0:ℚ) ≤ (b:ℚ) := by exact_mod_cast hb0
  have hgb : (0:ℚ) < (g:ℚ) - b := by linarith
  have hg0 : (0:ℚ) < (g:ℚ) := by linarith
  have hmax : max ((r:ℚ)/255) (max ((g:ℚ)/255) ((b:ℚ)/255)) = (g:ℚ)/255 := by
    rw [max_eq_left (by gcongr <;> omega : (b:ℚ)/255 ≤ (g:ℚ)/255)]
    exact max_eq_right (by gcongr)
  have hmin : min ((r:ℚ)/255) (min ((g:ℚ)/255) ((b:ℚ)/255)) = (b:ℚ)/255 := by
    rw [min_eq_right (by gcongr <;> omega : (b:ℚ)/255 ≤ (g:ℚ)/255)]
    exact min_eq_right (by gcongr <;> omega)
  have hdpos : (0:ℚ) < (g:ℚ)/255 - (b:ℚ)/255 := by
    rw [div_sub_div_same]; positivity
  have hdne : ¬((g:ℚ)/255 - (b:ℚ)/255 = 0) := by linarith
  have hm0ne : ¬((g:ℚ)/255 = 0) := (div_pos hg0 (by norm_num)).ne'
  have hrne : ¬((g:ℚ)/255 = (r:ℚ)/255) := by
    intro hcon
    rw [div_eq_div_iff (by norm_num) (by norm_num)] at hcon
    have : (g:ℚ) = r := by linarith
    linarith
  have hfrac : ((b:ℚ)/255 - (r:ℚ)/255) / ((g:ℚ)/255 - (b:ℚ)/255) = ((b:ℚ) - r)/((g:ℚ) - b) := by
    rw [div_sub_div_same, div_sub_div_same, div_div_div_cancel_right₀]
    norm_num
  have hshift : (((b:ℚ) - r)/((g:ℚ) - b) + 2) * 60 = 60*((b:ℚ) - r)/((g:ℚ) - b) + ((120:ℤ):ℚ) := by
    push_cast; ring
  have hxgeneg : -60 ≤ 60*((b:ℚ) - r)/((g:ℚ) - b) := by
    rw [neg_le, ← neg_div]
    rw [div_le_iff₀ hgb]
    nlinarith
  have hwrap : ¬(jsRound (60*((b:ℚ) - r)/((g:ℚ) - b)) + 120 < 0) := by
    push_neg
    have h2 : ((-60:ℤ):ℚ) ≤ 60*((b:ℚ) - r)/((g:ℚ) - b) := by push_cast; linarith
    have h3 := jsRound_mono h2
    rw [jsRound_intCast] at h3
    omega
  simp only [rgbToHsv]
  rw [hmax, hmin, if_neg hdne, if_neg hrne, if_pos rfl, hfrac, if_neg hm0ne,
    hshift, jsRound_add_int, if_neg hwrap]
  congr 1
  · refine congrArg jsRound ?_
    rw [div_sub_div_same, div_div_div_cancel_right₀]
    · ring
    · norm_num
  · exact congrArg jsRound (by ring)

theorem rgbToHsv_case5 (r g b : ℤ) (hg0 : 0 ≤ g) (hgr : g ≤ r) (hrb : r < b) :
    rgbToHsv r g b =
      ⟨jsRound (60*((r:ℚ) - g)/((b:ℚ) - g)) + 240,
       jsRound (((b:ℚ) - g)*100/b),
       jsRound ((b:ℚ)*100/255)⟩ := by
  have hgrq : (g:ℚ) ≤ r := by exact_mod_cast hgr
  have hrbq : (r:ℚ) < b := by exact_mod_cast hrb
  have hg0q : (0:ℚ) ≤ (g:ℚ) := by exact_mod_cast hg0
  have hbg : (0:ℚ) < (b:ℚ) - g := by linarith
  have hb0 : (0:ℚ) < (b:ℚ) := by linarith
  have hmax : max ((r:ℚ)/255) (max ((g:ℚ)/255) ((b:ℚ)/255)) = (b:ℚ)/255 := by
    rw [max_eq_right (by gcongr <;> omega : (g:ℚ)/255 ≤ (b:ℚ)/255)]
    exact max_eq_right (by gcongr)
  have hmin : min ((r:ℚ)/255) (min ((g:ℚ)/255) ((b:ℚ)/255)) = (g:ℚ)/255 := by
    rw [min_eq_left (by gcongr <;> omega : (g:ℚ)/255 ≤ (b:ℚ)/255)]
    exact min_eq_right (by gcongr)
  have hdpos : (0:ℚ) < (b:ℚ)/255 - (g:ℚ)/255 := by
    rw [div_sub_div_same]; positivity
  have hdne : ¬((b:ℚ)/255 - (g:ℚ)/255 = 0) := by linarith
  have hm0ne : ¬((b:ℚ)/255 = 0) := (div_pos hb0 (by norm_num)).ne'
  have hrne : ¬((b:ℚ)/255 = (r:ℚ)/255) := by
    intro hcon
    rw [div_eq_div_iff (by norm_num) (by norm_num)] at hcon
    have : (b:ℚ) = r := by linarith
    linarith
  have hgne : ¬((b:ℚ)/255 = (g:ℚ)/255) := by
    intro hcon
    rw [div_eq_div_iff (by norm_num) (by norm_num)] at hcon
    have : (b:ℚ) = g := by linarith
    linarith
  have hfrac : ((r:ℚ)/255 - (g:ℚ)/255) / ((b:ℚ)/255 - (g:ℚ)/255) = ((r:ℚ) - g)/((b:ℚ) - g) := by
    rw [div_sub_div_same, div_sub_div_same, div_div_div_cancel_right₀]
    norm_num
  have hshift : (((r:ℚ) - g)/((b:ℚ) - g) + 4) * 60 = 60*((r:ℚ) - g)/((b:ℚ) - g) + ((240:ℤ):ℚ) := by
    push_cast; ring
  have hwrap : ¬(jsRound (60*((r:ℚ) - g)/((b:ℚ) - g)) + 240 < 0) := by
    push_neg
    have h2 : 0 ≤ jsRound (60*((r:ℚ) - g)/((b:ℚ) - g)) :=
      jsRound_nonneg _ (div_nonneg (by linarith) (by linarith))
    omega
  simp only [rgbToHsv]
  rw [hmax, hmin, if_neg hdne, if_neg hrne, if_neg hgne, hfrac, if_neg hm0ne,
    hshift, jsRound_add_int, if_neg hwrap]
  congr 1
  · refine congrArg jsRound ?_
    rw [div_sub_div_same, div_div_div_cancel_right₀]
    · ring
    · norm_num
  · exact congrArg jsRound (by ring)

theorem rgbToHsv_case6 (r g b : ℤ) (hr0 : 0 ≤ r) (hrg : r < g) (hgb : g < b) :
    rgbToHsv r g b =
      ⟨jsRound (60*((r:ℚ) - g)/((b:ℚ) - r)) + 240,
       jsRound (((b:ℚ) - r)*100/b),
       jsRound ((b:ℚ)*100/255)⟩ := by
  have hrgq : (r:ℚ) < g := by exact_mod_cast hrg
  have hgbq : (g:ℚ) < b := by exact_mod_cast hgb
  have hr0q : (0:ℚ) ≤ (r:ℚ) := by exact_mod_cast hr0
  have hbr : (0:ℚ) < (b:ℚ) - r := by linarith
  have hb0 : (0:ℚ) < (b:ℚ) := by linarith
  have hmax : max ((r:ℚ)/255) (max ((g:ℚ)/255) ((b:ℚ)/255)) = (b:ℚ)/255 := by
    rw [max_eq_right (by gcongr : (g:ℚ)/255 ≤ (b:ℚ)/255)]
    exact max_eq_right (by gcongr <;> omega)
  have hmin : min ((r:ℚ)/255) (min ((g:ℚ)/255) ((b:ℚ)/255)) = (r:ℚ)/255 := by
    rw [min_eq_left (by gcongr : (g:ℚ)/255 ≤ (b:ℚ)/255)]
    exact min_eq_left (by gcongr <;> omega)
  have hdpos : (0:ℚ) < (b:ℚ)/255 - (r:ℚ)/255 := by
    rw [div_sub_div_same]; positivity
  have hdne : ¬((b:ℚ)/255 - (r:ℚ)/255 = 0) := by linarith
  have hm0ne : ¬((b:ℚ)/255 = 0) := (div_pos hb0 (by norm_num)).ne'
  have hrne : ¬((b:ℚ)/255 = (r:ℚ)/255) := by
    intro hcon
    rw [div_eq_div_iff (by norm_num) (by norm_num)] at hcon
    have : (b:ℚ) = r := by linarith
    linarith
  have hgne : ¬((b:ℚ)/255 = (g:ℚ)/255) := by
    intro hcon
    rw [div_eq_div_iff (by norm_num) (by norm_num)] at hcon
    have : (b:ℚ) = g := by linarith
    linarith
  have hfrac : ((r:ℚ)/255 - (g:ℚ)/255) / ((b:ℚ)/255 - (r:ℚ)/255) = ((r:ℚ) - g)/((b:ℚ) - r) := by
    rw [div_sub_div_same, div_sub_div_same, div_div_div_cancel_right₀]
    norm_num
  have hshift : (((r:ℚ) - g)/((b:ℚ) - r) + 4) * 60 = 60*((r:ℚ) - g)/((b:ℚ) - r) + ((240:ℤ):ℚ) := by
    push_cast; ring
  have hxgeneg : -60 ≤ 60*((r:ℚ) - g)/((b:ℚ) - r) := by
    rw [neg_le, ← neg_div]
    rw [div_le_iff₀ hbr]
    nlinarith
  have hwrap : ¬(jsRound (60*((r:ℚ) - g)/((b:ℚ) - r)) + 240 < 0) := by
    push_neg
    have h2 : ((-60:ℤ):ℚ) ≤ 60*((r:ℚ) - g)/((b:ℚ) - r) := by push_cast; linarith
    have h3 := jsRound_mono h2
    rw [jsRound_intCast] at h3
    omega
  simp only [rgbToHsv]
  rw [hmax, hmin, if_neg hdne, if_neg hrne, if_neg hgne, hfrac, if_neg hm0ne,
    hshift, jsRound_add_int, if_neg hwrap]
  congr 1
  · refine congrArg jsRound ?_
    rw [div_sub_div_same, div_div_div_cancel_right₀]
    · ring
    · norm_num
  · exact congrArg jsRound (by ring)

/-! ### Assembling the round trip bound -/

theorem s_round_zero_small (mx d : ℤ) (hd : 1 ≤ d) (hdm : d ≤ mx) (hmx : mx ≤ 255)
    (h0 : jsRound ((d:ℚ)*100/mx) = 0) : d ≤ 1 := by
  by_contra hcon
  push_neg at hcon
  have hd2 : (2:ℚ) ≤ (d:ℚ) := by exact_mod_cast hcon
  have hmxq : (0:ℚ) < (mx:ℚ) := by
    have : (1:ℚ) ≤ (mx:ℚ) := by exact_mod_cast hd.trans hdm
    linarith
  have hmx255 : (mx:ℚ) ≤ 255 := by exact_mod_cast hmx
  have hlt := lt_jsRound ((d:ℚ)*100/mx)
  rw [h0] at hlt
  have h2 : (d:ℚ)*100/mx < 1/2 := by push_cast at hlt; linarith
  rw [div_lt_iff₀ hmxq] at h2
  linarith

theorem v_round_bounds (mx : ℤ) (h0 : 0 ≤ mx) (h255 : mx ≤ 255) :
    0 ≤ jsRound ((mx:ℚ)*100/255) ∧ jsRound ((mx:ℚ)*100/255) ≤ 100 := by
  constructor
  · exact jsRound_nonneg _ (by positivity)
  · have harg : (mx:ℚ)*100/255 ≤ ((100:ℤ):ℚ) := by
      rw [div_le_iff₀ (by norm_num : (0:ℚ) < 255)]
      push_cast
      nlinarith [show (mx:ℚ) ≤ 255 by exact_mod_cast h255]
    have h2 := jsRound_mono harg
    rwa [jsRound_intCast] at h2

theorem s_round_bounds (mx d : ℤ) (hd : 0 ≤ d) (hdm : d ≤ mx) (h1 : 1 ≤ mx) :
    0 ≤ jsRound ((d:ℚ)*100/mx) ∧ jsRound ((d:ℚ)*100/mx) ≤ 100 := by
  have hmxq : (0:ℚ) < (mx:ℚ) := by
    have h2 : (1:ℚ) ≤ (mx:ℚ) := by exact_mod_cast h1
    linarith
  constructor
  · exact jsRound_nonneg _ (div_nonneg (by positivity) hmxq.le)
  · have harg : (d:ℚ)*100/mx ≤ ((100:ℤ):ℚ) := by
      rw [div_le_iff₀ hmxq]
      push_cast
      nlinarith [show (d:ℚ) ≤ (mx:ℚ) by exact_mod_cast hdm]
    have h2 := jsRound_mono harg
    rwa [jsRound_intCast] at h2

theorem roundTrip_gray_channels (r g b mx d : ℤ) (hd : 1 ≤ d) (hdm : d ≤ mx)
    (hmx : mx ≤ 255) (hs0 : jsRound ((d:ℚ)*100/mx) = 0)
    (hrc : mx - d ≤ r ∧ r ≤ mx) (hgc : mx - d ≤ g ∧ g ≤ mx) (hbc : mx - d ≤ b ∧ b ≤ mx) :
    |pvI (jsRound ((mx:ℚ)*100/255)) - r| ≤ 3 ∧ |pvI (jsRound ((mx:ℚ)*100/255)) - g| ≤ 3 ∧
      |pvI (jsRound ((mx:ℚ)*100/255)) - b| ≤ 3 := by
  have hdle := s_round_zero_small mx d hd hdm hmx hs0
  have hpv := pv_bound mx hmx
  have h1 := abs_le.1 hpv
  refine ⟨abs_le.2 ⟨by omega, by omega⟩, abs_le.2 ⟨by omega, by omega⟩,
    abs_le.2 ⟨by omega, by omega⟩⟩

theorem roundTrip_case1_bound (r g b : ℤ) (hb0 : 0 ≤ b) (hbg : b ≤ g) (hgr : g ≤ r)
    (hbr : b < r) (hr255 : r ≤ 255) :
    |(roundTrip r g b).r - r| ≤ 3 ∧ |(roundTrip r g b).g - g| ≤ 3 ∧
      |(roundTrip r g b).b - b| ≤ 3 := by
  have hd : 1 ≤ r - b := by omega
  have hdm : r - b ≤ r := by omega
  have hk0 : 0 ≤ g - b := by omega
  have hkd : g - b ≤ r - b := by omega
  have hdq0 : (0:ℚ) < (r:ℚ) - b := by
    have : (b:ℚ) < (r:ℚ) := by exact_mod_cast hbr
    linarith
  -- the hue output and its rounding distance
  set hh : ℤ := jsRound (60*((g:ℚ) - b)/((r:ℚ) - b)) with hhdef
  have hhc : |(hh:ℚ) - 60*((g - b:ℤ):ℚ)/((r - b:ℤ):ℚ)| ≤ 1/2 := by
    have h2 := abs_jsRound_sub_le (60*((g:ℚ) - b)/((r:ℚ) - b))
    rw [hhdef]
    rw [show ((g - b:ℤ):ℚ) = (g:ℚ) - b by push_cast; ring,
      show ((r - b:ℤ):ℚ) = (r:ℚ) - b by push_cast; ring]
    exact h2
  have hbgq : (b:ℚ) ≤ (g:ℚ) := by exact_mod_cast hbg
  have hh0 : 0 ≤ hh := hhdef ▸ jsRound_nonneg _
    (div_nonneg (by linarith) hdq0.le)
  have hh60 : hh ≤ 60 := by
    have harg : 60*((g:ℚ) - b)/((r:ℚ) - b) ≤ ((60:ℤ):ℚ) := by
      push_cast
      rw [div_le_iff₀ hdq0]
      have hgrq : (g:ℚ) ≤ (r:ℚ) := by exact_mod_cast hgr
      nlinarith
    have h2 := jsRound_mono harg
    rw [jsRound_intCast] at h2
    exact hhdef ▸ h2
  -- unfolding the pipeline
  unfold roundTrip
  rw [rgbToHsv_case1 r g b hb0 hbg hgr hbr]
  rw [show jsRound (((r:ℚ) - b)*100/r) = jsRound (((r - b:ℤ):ℚ)*100/(r:ℚ))
    from congrArg jsRound (by push_cast; ring)]
  set S : ℤ := jsRound (((r - b:ℤ):ℚ)*100/(r:ℚ)) with hSdef
  set V : ℤ := jsRound ((r:ℚ)*100/255) with hVdef
  change |(hsvToRgb (hh:ℚ) (S:ℚ) (V:ℚ)).r - r| ≤ 3 ∧
    |(hsvToRgb (hh:ℚ) (S:ℚ) (V:ℚ)).g - g| ≤ 3 ∧
    |(hsvToRgb (hh:ℚ) (S:ℚ) (V:ℚ)).b - b| ≤ 3
  have hVb := v_round_bounds r (by omega) hr255
  have hSb := s_round_bounds r (r - b) (by omega) hdm (by omega)
  rw [← hVdef] at hVb
  rw [← hSdef] at hSb
  by_cases hS0 : S = 0
  · -- saturation rounded to zero: gray reconstruction, d ≤ 1
    rw [hS0]
    rw [hsvToRgb_gray hh V hVb.1 hVb.2]
    have hgray := roundTrip_gray_channels r g b r (r - b) hd hdm hr255 (by rw [← hSdef]; exact hS0)
      ⟨by omega, by omega⟩ ⟨by omega, by omega⟩ ⟨by omega, by omega⟩
    rw [← hVdef] at hgray
    exact ⟨hgray.1, hgray.2.1, hgray.2.2⟩
  · have hS1 : 1 ≤ S := by omega
    have hmid := tt_bound r (r - b) (g - b) hh hd hdm hr255 hk0 hkd hh0 hh60 hhc
    have hmax := pv_bound r hr255
    have hmin := pp_bound r (r - b) hd hdm hr255
    rw [← hSdef, ← hVdef] at hmid
    rw [← hVdef] at hmax
    rw [← hSdef, ← hVdef] at hmin
    have hmn : r - (r - b) = b := by ring
    have hmd : r - (r - b) + (g - b) = g := by ring
    rw [hmn] at hmin
    rw [hmd] at hmid
    rw [hsvToRgb_eq_sectorRgb hh S V (by omega) (by omega) hS1 hSb.2 hVb.1 hVb.2]
    by_cases hh6 : hh = 60
    · rw [show sectorRgb hh S V = ⟨pvI V, ttI hh S V, ppI S V⟩ by
        rw [hh6]
        show sectorRgb 60 S V = _
        rw [sectorRgb]
        norm_num [ttI_sixty]]
      exact ⟨show |pvI V - r| ≤ 3 from hmax.trans (by norm_num),
        show |ttI hh S V - g| ≤ 3 from hmid, show |ppI S V - b| ≤ 3 from hmin⟩
    · rw [show sectorRgb hh S V = ⟨pvI V, ttI hh S V, ppI S V⟩ by
        rw [sectorRgb]
        rw [show hh / 60 = 0 by omega, show hh % 60 = hh by omega]
        norm_num]
      exact ⟨show |pvI V - r| ≤ 3 from hmax.trans (by norm_num),
        show |ttI hh S V - g| ≤ 3 from hmid, show |ppI S V - b| ≤ 3 from hmin⟩

theorem roundTrip_case2_bound (r g b : ℤ) (hg0 : 0 ≤ g) (hgb : g < b) (hbr : b ≤ r)
    (hr255 : r ≤ 255) :
    |(roundTrip r g b).r - r| ≤ 3 ∧ |(roundTrip r g b).g - g| ≤ 3 ∧
      |(roundTrip r g b).b - b| ≤ 3 := by
  have hd : 1 ≤ r - g := by omega
  have hdm : r - g ≤ r := by omega
  have hk0 : 0 ≤ b - g := by omega
  have hkd : b - g ≤ r - g := by omega
  have hdq0 : (0:ℚ) < (r:ℚ) - g := by
    have h2 : (g:ℚ) < (r:ℚ) := by exact_mod_cast hgb.trans_le hbr
    linarith
  have hgbq : (g:ℚ) < (b:ℚ) := by exact_mod_cast hgb
  have hbrq : (b:ℚ) ≤ (r:ℚ) := by exact_mod_cast hbr
  set hh : ℤ := jsRound (60*((g:ℚ) - b)/((r:ℚ) - g)) with hhdef
  have hharg : 60*((g:ℚ) - b)/((r:ℚ) - g) = -(60*((b - g:ℤ):ℚ)/((r - g:ℤ):ℚ)) := by
    push_cast
    ring
  have hhc : |(hh:ℚ) + 60*((b - g:ℤ):ℚ)/((r - g:ℤ):ℚ)| ≤ 1/2 := by
    have h2 := abs_jsRound_sub_le (60*((g:ℚ) - b)/((r:ℚ) - g))
    nth_rewrite 2 [hharg] at h2
    rw [sub_neg_eq_add] at h2
    rw [hhdef]
    exact h2
  have hh0 : hh ≤ 0 := by
    have harg : 60*((g:ℚ) - b)/((r:ℚ) - g) ≤ ((0:ℤ):ℚ) := by
      push_cast
      apply div_nonpos_of_nonpos_of_nonneg (by linarith) (by linarith)
    have h2 := jsRound_mono harg
    rw [jsRound_intCast] at h2
    exact hhdef ▸ h2
  have hh60 : -60 ≤ hh := by
    have harg : ((-60:ℤ):ℚ) ≤ 60*((g:ℚ) - b)/((r:ℚ) - g) := by
      push_cast
      rw [neg_le, ← neg_div, ← neg_mul]
      rw [div_le_iff₀ hdq0]
      nlinarith
    have h2 := jsRound_mono harg
    rw [jsRound_intCast] at h2
    exact hhdef ▸ h2
  unfold roundTrip
  rw [rgbToHsv_case2 r g b hg0 hgb hbr]
  rw [show jsRound (((r:ℚ) - g)*100/r) = jsRound (((r - g:ℤ):ℚ)*100/(r:ℚ))
    from congrArg jsRound (by push_cast; ring)]
  set S : ℤ := jsRound (((r - g:ℤ):ℚ)*100/(r:ℚ)) with hSdef
  set V : ℤ := jsRound ((r:ℚ)*100/255) with hVdef
  have hVb := v_round_bounds r (by omega) hr255
  have hSb := s_round_bounds r (r - g) (by omega) hdm (by omega)
  rw [← hVdef] at hVb
  rw [← hSdef] at hSb
  by_cases hneg : hh < 0
  · rw [if_pos hneg]
    change |(hsvToRgb ((hh + 360 : ℤ):ℚ) (S:ℚ) (V:ℚ)).r - r| ≤ 3 ∧
      |(hsvToRgb ((hh + 360 : ℤ):ℚ) (S:ℚ) (V:ℚ)).g - g| ≤ 3 ∧
      |(hsvToRgb ((hh + 360 : ℤ):ℚ) (S:ℚ) (V:ℚ)).b - b| ≤ 3
    by_cases hS0 : S = 0
    · rw [hS0]
      rw [hsvToRgb_gray (hh + 360) V hVb.1 hVb.2]
      have hgray := roundTrip_gray_channels r g b r (r - g) hd hdm hr255
        (by rw [← hSdef]; exact hS0)
        ⟨by omega, by omega⟩ ⟨by omega, by omega⟩ ⟨by omega, by omega⟩
      rw [← hVdef] at hgray
      exact ⟨hgray.1, hgray.2.1, hgray.2.2⟩
    · have hS1 : 1 ≤ S := by omega
      have hww : |((-hh:ℤ):ℚ) - 60*((b - g:ℤ):ℚ)/((r - g:ℤ):ℚ)| ≤ 1/2 := by
        push_cast
        rw [show -(hh:ℚ) - 60*((b:ℚ) - g)/((r:ℚ) - g)
            = -((hh:ℚ) + 60*((b:ℚ) - g)/((r:ℚ) - g)) by ring, abs_neg]
        have h3 := hhc
        push_cast at h3
        exact h3
      have hmid := tt_bound r (r - g) (b - g) (-hh) hd hdm hr255 hk0 hkd
        (by omega) (by omega) hww
      have hmax := pv_bound r hr255
      have hmin := pp_bound r (r - g) hd hdm hr255
      rw [← hSdef, ← hVdef] at hmid
      rw [← hVdef] at hmax
      rw [← hSdef, ← hVdef] at hmin
      have hmn : r - (r - g) = g := by ring
      have hmd : r - (r - g) + (b - g) = b := by ring
      rw [hmn] at hmin
      rw [hmd] at hmid
      rw [hsvToRgb_eq_sectorRgb (hh + 360) S V (by omega) (by omega) hS1 hSb.2 hVb.1 hVb.2]
      rw [show sectorRgb (hh + 360) S V = ⟨pvI V, ppI S V, ttI (-hh) S V⟩ by
        rw [sectorRgb]
        rw [show (hh + 360)/60 = 5 by omega, show (hh + 360) % 60 = hh + 60 by omega]
        norm_num [show (60:ℤ) - (hh + 60) = -hh by ring]]
      exact ⟨show |pvI V - r| ≤ 3 from hmax.trans (by norm_num),
        show |ppI S V - g| ≤ 3 from hmin, show |ttI (-hh) S V - b| ≤ 3 from hmid⟩
  · rw [if_neg hneg]
    have hz : hh = 0 := by omega
    change |(hsvToRgb ((hh : ℤ):ℚ) (S:ℚ) (V:ℚ)).r - r| ≤ 3 ∧
      |(hsvToRgb ((hh : ℤ):ℚ) (S:ℚ) (V:ℚ)).g - g| ≤ 3 ∧
      |(hsvToRgb ((hh : ℤ):ℚ) (S:ℚ) (V:ℚ)).b - b| ≤ 3
    rw [hz]
    by_cases hS0 : S = 0
    · rw [hS0]
      rw [hsvToRgb_gray 0 V hVb.1 hVb.2]
      have hgray := roundTrip_gray_channels r g b r (r - g) hd hdm hr255
        (by rw [← hSdef]; exact hS0)
        ⟨by omega, by omega⟩ ⟨by omega, by omega⟩ ⟨by omega, by omega⟩
      rw [← hVdef] at hgray
      exact ⟨hgray.1, hgray.2.1, hgray.2.2⟩
    · have hS1 : 1 ≤ S := by omega
      have hww : |((0:ℤ):ℚ) - 60*((b - g:ℤ):ℚ)/((r - g:ℤ):ℚ)| ≤ 1/2 := by
        have h3 := hhc
        rw [hz] at h3
        push_cast at h3 ⊢
        rw [show (0:ℚ) - 60*((b:ℚ) - g)/((r:ℚ) - g)
            = -((0:ℚ) + 60*((b:ℚ) - g)/((r:ℚ) - g)) by ring, abs_neg]
        exact h3
      have hmid := tt_bound r (r - g) (b - g) 0 hd hdm hr255 hk0 hkd
        le_rfl (by norm_num) hww
      have hmax := pv_bound r hr255
      have hmin := pp_bound r (r - g) hd hdm hr255
      rw [← hSdef, ← hVdef] at hmid
      rw [← hVdef] at hmax
      rw [← hSdef, ← hVdef] at hmin
      have hmn : r - (r - g) = g := by ring
      have hmd : r - (r - g) + (b - g) = b := by ring
      rw [hmn] at hmin
      rw [hmd] at hmid
      rw [ttI_zero] at hmid
      rw [hsvToRgb_eq_sectorRgb 0 S V (by omega) (by omega) hS1 hSb.2 hVb.1 hVb.2]
      rw [show sectorRgb 0 S V = ⟨pvI V, ppI S V, ppI S V⟩ by
        rw [sectorRgb]
        norm_num [ttI_zero]]
      exact ⟨show |pvI V - r| ≤ 3 from hmax.trans (by norm_num),
        show |ppI S V - g| ≤ 3 from hmin, show |ppI S V - b| ≤ 3 from hmid⟩

theorem roundTrip_case3_bound (r g b : ℤ) (hr0 : 0 ≤ r) (hrb : r ≤ b) (hbg : b ≤ g)
    (hrg : r < g) (hg255 : g ≤ 255) :
    |(roundTrip r g b).r - r| ≤ 3 ∧ |(roundTrip r g b).g - g| ≤ 3 ∧
      |(roundTrip r g b).b - b| ≤ 3 := by
  have hd : 1 ≤ g - r := by omega
  have hdm : g - r ≤ g := by omega
  have hk0 : 0 ≤ b - r := by omega
  have hkd : b - r ≤ g - r := by omega
  have hdq0 : (0:ℚ) < (g:ℚ) - r := by
    have h2 : (r:ℚ) < (g:ℚ) := by exact_mod_cast hrg
    linarith
  have hrbq : (r:ℚ) ≤ (b:ℚ) := by exact_mod_cast hrb
  have hbgq : (b:ℚ) ≤ (g:ℚ) := by exact_mod_cast hbg
  set hh : ℤ := jsRound (60*((b:ℚ) - r)/((g:ℚ) - r)) with hhdef
  have hhc : |(hh:ℚ) - 60*((b - r:ℤ):ℚ)/((g - r:ℤ):ℚ)| ≤ 1/2 := by
    have h2 := abs_jsRound_sub_le (60*((b:ℚ) - r)/((g:ℚ) - r))
    rw [hhdef]
    rw [show ((b - r:ℤ):ℚ) = (b:ℚ) - r by push_cast; ring,
      show ((g - r:ℤ):ℚ) = (g:ℚ) - r by push_cast; ring]
    exact h2
  have hh0 : 0 ≤ hh := hhdef ▸ jsRound_nonneg _ (div_nonneg (by linarith) hdq0.le)
  have hh60 : hh ≤ 60 := by
    have harg : 60*((b:ℚ) - r)/((g:ℚ) - r) ≤ ((60:ℤ):ℚ) := by
      push_cast
      rw [div_le_iff₀ hdq0]
      nlinarith
    have h2 := jsRound_mono harg
    rw [jsRound_intCast] at h2
    exact hhdef ▸ h2
  unfold roundTrip
  rw [rgbToHsv_case3 r g b hr0 hrb hbg hrg]
  rw [show jsRound (((g:ℚ) - r)*100/g) = jsRound (((g - r:ℤ):ℚ)*100/(g:ℚ))
    from congrArg jsRound (by push_cast; ring)]
  set S : ℤ := jsRound (((g - r:ℤ):ℚ)*100/(g:ℚ)) with hSdef
  set V : ℤ := jsRound ((g:ℚ)*100/255) with hVdef
  change |(hsvToRgb ((hh + 120 : ℤ):ℚ) (S:ℚ) (V:ℚ)).r - r| ≤ 3 ∧
    |(hsvToRgb ((hh + 120 : ℤ):ℚ) (S:ℚ) (V:ℚ)).g - g| ≤ 3 ∧
    |(hsvToRgb ((hh + 120 : ℤ):ℚ) (S:ℚ) (V:ℚ)).b - b| ≤ 3
  have hVb := v_round_bounds g (by omega) hg255
  have hSb := s_round_bounds g (g - r) (by omega) hdm (by omega)
  rw [← hVdef] at hVb
  rw [← hSdef] at hSb
  by_cases hS0 : S = 0
  · rw [hS0]
    rw [hsvToRgb_gray (hh + 120) V hVb.1 hVb.2]
    have hgray := roundTrip_gray_channels r g b g (g - r) hd hdm hg255
      (by rw [← hSdef]; exact hS0)
      ⟨by omega, by omega⟩ ⟨by omega, by omega⟩ ⟨by omega, by omega⟩
    rw [← hVdef] at hgray
    exact ⟨hgray.1, hgray.2.1, hgray.2.2⟩
  · have hS1 : 1 ≤ S := by omega
    have hmid := tt_bound g (g - r) (b - r) hh hd hdm hg255 hk0 hkd hh0 hh60 hhc
    have hmax := pv_bound g hg255
    have hmin := pp_bound g (g - r) hd hdm hg255
    rw [← hSdef, ← hVdef] at hmid
    rw [← hVdef] at hmax
    rw [← hSdef, ← hVdef] at hmin
    have hmn : g - (g - r) = r := by ring
    have hmd : g - (g - r) + (b - r) = b := by ring
    rw [hmn] at hmin
    rw [hmd] at hmid
    rw [hsvToRgb_eq_sectorRgb (hh + 120) S V (by omega) (by omega) hS1 hSb.2 hVb.1 hVb.2]
    by_cases hh6 : hh = 60
    · rw [show sectorRgb (hh + 120) S V = ⟨ppI S V, pvI V, ttI hh S V⟩ by
        rw [hh6]
        show sectorRgb 180 S V = _
        rw [sectorRgb]
        norm_num [ttI_sixty]]
      exact ⟨show |ppI S V - r| ≤ 3 from hmin,
        show |pvI V - g| ≤ 3 from hmax.trans (by norm_num),
        show |ttI hh S V - b| ≤ 3 from hmid⟩
    · rw [show sectorRgb (hh + 120) S V = ⟨ppI S V, pvI V, ttI hh S V⟩ by
        rw [sectorRgb]
        rw [show (hh + 120) / 60 = 2 by omega, show (hh + 120) % 60 = hh by omega]
        norm_num]
      exact ⟨show |ppI S V - r| ≤ 3 from hmin,
        show |pvI V - g| ≤ 3 from hmax.trans (by norm_num),
        show |ttI hh S V - b| ≤ 3 from hmid⟩

theorem roundTrip_case4_bound (r g b : ℤ) (hb0 : 0 ≤ b) (hbr : b < r) (hrg : r < g)
    (hg255 : g ≤ 255) :
    |(roundTrip r g b).r - r| ≤ 3 ∧ |(roundTrip r g b).g - g| ≤ 3 ∧
      |(roundTrip r g b).b - b| ≤ 3 := by
  have hd : 1 ≤ g - b := by omega
  have hdm : g - b ≤ g := by omega
  have hk0 : 0 ≤ r - b := by omega
  have hkd : r - b ≤ g - b := by omega
  have hdq0 : (0:ℚ) < (g:ℚ) - b := by
    have h2 : (b:ℚ) < (g:ℚ) := by exact_mod_cast hbr.trans hrg
    linarith
  have hbrq : (b:ℚ) < (r:ℚ) := by exact_mod_cast hbr
  have hrgq : (r:ℚ) < (g:ℚ) := by exact_mod_cast hrg
  set hh : ℤ := jsRound (60*((b:ℚ) - r)/((g:ℚ) - b)) with hhdef
  have hharg : 60*((b:ℚ) - r)/((g:ℚ) - b) = -(60*((r - b:ℤ):ℚ)/((g - b:ℤ):ℚ)) := by
    push_cast
    ring
  have hhc : |(hh:ℚ) + 60*((r - b:ℤ):ℚ)/((g - b:ℤ):ℚ)| ≤ 1/2 := by
    have h2 := abs_jsRound_sub_le (60*((b:ℚ) - r)/((g:ℚ) - b))
    nth_rewrite 2 [hharg] at h2
    rw [sub_neg_eq_add] at h2
    rw [hhdef]
    exact h2
  have hh0 : hh ≤ 0 := by
    have harg : 60*((b:ℚ) - r)/((g:ℚ) - b) ≤ ((0:ℤ):ℚ) := by
      push_cast
      apply div_nonpos_of_nonpos_of_nonneg (by linarith) (by linarith)
    have h2 := jsRound_mono harg
    rw [jsRound_intCast] at h2
    exact hhdef ▸ h2
  have hh60 : -60 ≤ hh := by
    have harg : ((-60:ℤ):ℚ) ≤ 60*((b:ℚ) - r)/((g:ℚ) - b) := by
      push_cast
      rw [neg_le, ← neg_div, ← neg_mul]
      rw [div_le_iff₀ hdq0]
      nlinarith
    have h2 := jsRound_mono harg
    rw [jsRound_intCast] at h2
    exact hhdef ▸ h2
  unfold roundTrip
  rw [rgbToHsv_case4 r g b hb0 hbr hrg]
  rw [show jsRound (((g:ℚ) - b)*100/g) = jsRound (((g - b:ℤ):ℚ)*100/(g:ℚ))
    from congrArg jsRound (by push_cast; ring)]
  set S : ℤ := jsRound (((g - b:ℤ):ℚ)*100/(g:ℚ)) with hSdef
  set V : ℤ := jsRound ((g:ℚ)*100/255) with hVdef
  change |(hsvToRgb ((hh + 120 : ℤ):ℚ) (S:ℚ) (V:ℚ)).r - r| ≤ 3 ∧
    |(hsvToRgb ((hh + 120 : ℤ):ℚ) (S:ℚ) (V:ℚ)).g - g| ≤ 3 ∧
    |(hsvToRgb ((hh + 120 : ℤ):ℚ) (S:ℚ) (V:ℚ)).b - b| ≤ 3
  have hVb := v_round_bounds g (by omega) hg255
  have hSb := s_round_bounds g (g - b) (by omega) hdm (by omega)
  rw [← hVdef] at hVb
  rw [← hSdef] at hSb
  by_cases hS0 : S = 0
  · rw [hS0]
    rw [hsvToRgb_gray (hh + 120) V hVb.1 hVb.2]
    have hgray := roundTrip_gray_channels r g b g (g - b) hd hdm hg255
      (by rw [← hSdef]; exact hS0)
      ⟨by omega, by omega⟩ ⟨by omega, by omega⟩ ⟨by omega, by omega⟩
    rw [← hVdef] at hgray
    exact ⟨hgray.1, hgray.2.1, hgray.2.2⟩
  · have hS1 : 1 ≤ S := by omega
    have hmax := pv_bound g hg255
    have hmin := pp_bound g (g - b) hd hdm hg255
    rw [← hVdef] at hmax
    rw [← hSdef, ← hVdef] at hmin
    have hmn : g - (g - b) = b := by ring
    rw [hmn] at hmin
    rw [hsvToRgb_eq_sectorRgb (hh + 120) S V (by omega) (by omega) hS1 hSb.2 hVb.1 hVb.2]
    by_cases hz : hh = 0
    · have hww : |((0:ℤ):ℚ) - 60*((r - b:ℤ):ℚ)/((g - b:ℤ):ℚ)| ≤ 1/2 := by
        have h3 := hhc
        rw [hz] at h3
        push_cast at h3 ⊢
        rw [show (0:ℚ) - 60*((r:ℚ) - b)/((g:ℚ) - b)
            = -((0:ℚ) + 60*((r:ℚ) - b)/((g:ℚ) - b)) by ring, abs_neg]
        exact h3
      have hmid := tt_bound g (g - b) (r - b) 0 hd hdm hg255 hk0 hkd le_rfl (by norm_num) hww
      rw [← hSdef, ← hVdef] at hmid
      have hmd : g - (g - b) + (r - b) = r := by ring
      rw [hmd] at hmid
      rw [ttI_zero] at hmid
      rw [hz]
      rw [show sectorRgb (0 + 120) S V = ⟨ppI S V, pvI V, ppI S V⟩ by
        rw [sectorRgb]
        norm_num [ttI_zero]]
      exact ⟨show |ppI S V - r| ≤ 3 from hmid,
        show |pvI V - g| ≤ 3 from hmax.trans (by norm_num),
        show |ppI S V - b| ≤ 3 from hmin⟩
    · have hww : |((-hh:ℤ):ℚ) - 60*((r - b:ℤ):ℚ)/((g - b:ℤ):ℚ)| ≤ 1/2 := by
        push_cast
        rw [show -(hh:ℚ) - 60*((r:ℚ) - b)/((g:ℚ) - b)
            = -((hh:ℚ) + 60*((r:ℚ) - b)/((g:ℚ) - b)) by ring, abs_neg]
        have h3 := hhc
        push_cast at h3
        exact h3
      have hmid := tt_bound g (g - b) (r - b) (-hh) hd hdm hg255 hk0 hkd
        (by omega) (by omega) hww
      rw [← hSdef, ← hVdef] at hmid
      have hmd : g - (g - b) + (r - b) = r := by ring
      rw [hmd] at hmid
      rw [show sectorRgb (hh + 120) S V = ⟨ttI (-hh) S V, pvI V, ppI S V⟩ by
        rw [sectorRgb]
        rw [show (hh + 120) / 60 = 1 by omega, show (hh + 120) % 60 = hh + 60 by omega]
        norm_num [show (60:ℤ) - (hh + 60) = -hh by ring]]
      exact ⟨show |ttI (-hh) S V - r| ≤ 3 from hmid,
        show |pvI V - g| ≤ 3 from hmax.trans (by norm_num),
        show |ppI S V - b| ≤ 3 from hmin⟩

theorem roundTrip_case5_bound (r g b : ℤ) (hg0 : 0 ≤ g) (hgr : g ≤ r) (hrb : r < b)
    (hb255 : b ≤ 255) :
    |(roundTrip r g b).r - r| ≤ 3 ∧ |(roundTrip r g b).g - g| ≤ 3 ∧
      |(roundTrip r g b).b - b| ≤ 3 := by
  have hd : 1 ≤ b - g := by omega
  have hdm : b - g ≤ b := by omega
  have hk0 : 0 ≤ r - g := by omega
  have hkd : r - g ≤ b - g := by omega
  have hdq0 : (0:ℚ) < (b:ℚ) - g := by
    have h2 : (g:ℚ) < (b:ℚ) := by exact_mod_cast hgr.trans_lt hrb
    linarith
  have hgrq : (g:ℚ) ≤ (r:ℚ) := by exact_mod_cast hgr
  have hrbq : (r:ℚ) < (b:ℚ) := by exact_mod_cast hrb
  set hh : ℤ := jsRound (60*((r:ℚ) - g)/((b:ℚ) - g)) with hhdef
  have hhc : |(hh:ℚ) - 60*((r - g:ℤ):ℚ)/((b - g:ℤ):ℚ)| ≤ 1/2 := by
    have h2 := abs_jsRound_sub_le (60*((r:ℚ) - g)/((b:ℚ) - g))
    rw [hhdef]
    rw [show ((r - g:ℤ):ℚ) = (r:ℚ) - g by push_cast; ring,
      show ((b - g:ℤ):ℚ) = (b:ℚ) - g by push_cast; ring]
    exact h2
  have hh0 : 0 ≤ hh := hhdef ▸ jsRound_nonneg _ (div_nonneg (by linarith) hdq0.le)
  have hh60 : hh ≤ 60 := by
    have harg : 60*((r:ℚ) - g)/((b:ℚ) - g) ≤ ((60:ℤ):ℚ) := by
      push_cast
      rw [div_le_iff₀ hdq0]
      nlinarith
    have h2 := jsRound_mono harg
    rw [jsRound_intCast] at h2
    exact hhdef ▸ h2
  unfold roundTrip
  rw [rgbToHsv_case5 r g b hg0 hgr hrb]
  rw [show jsRound (((b:ℚ) - g)*100/b) = jsRound (((b - g:ℤ):ℚ)*100/(b:ℚ))
    from congrArg jsRound (by push_cast; ring)]
  set S : ℤ := jsRound (((b - g:ℤ):ℚ)*100/(b:ℚ)) with hSdef
  set V : ℤ := jsRound ((b:ℚ)*100/255) with hVdef
  change |(hsvToRgb ((hh + 240 : ℤ):ℚ) (S:ℚ) (V:ℚ)).r - r| ≤ 3 ∧
    |(hsvToRgb ((hh + 240 : ℤ):ℚ) (S:ℚ) (V:ℚ)).g - g| ≤ 3 ∧
    |(hsvToRgb ((hh + 240 : ℤ):ℚ) (S:ℚ) (V:ℚ)).b - b| ≤ 3
  have hVb := v_round_bounds b (by omega) hb255
  have hSb := s_round_bounds b (b - g) (by omega) hdm (by omega)
  rw [← hVdef] at hVb
  rw [← hSdef] at hSb
  by_cases hS0 : S = 0
  · rw [hS0]
    rw [hsvToRgb_gray (hh + 240) V hVb.1 hVb.2]
    have hgray := roundTrip_gray_channels r g b b (b - g) hd hdm hb255
      (by rw [← hSdef]; exact hS0)
      ⟨by omega, by omega⟩ ⟨by omega, by omega⟩ ⟨by omega, by omega⟩
    rw [← hVdef] at hgray
    exact ⟨hgray.1, hgray.2.1, hgray.2.2⟩
  · have hS1 : 1 ≤ S := by omega
    have hmid := tt_bound b (b - g) (r - g) hh hd hdm hb255 hk0 hkd hh0 hh60 hhc
    have hmax := pv_bound b hb255
    have hmin := pp_bound b (b - g) hd hdm hb255
    rw [← hSdef, ← hVdef] at hmid
    rw [← hVdef] at hmax
    rw [← hSdef, ← hVdef] at hmin
    have hmn : b - (b - g) = g := by ring
    have hmd : b - (b - g) + (r - g) = r := by ring
    rw [hmn] at hmin
    rw [hmd] at hmid
    rw [hsvToRgb_eq_sectorRgb (hh + 240) S V (by omega) (by omega) hS1 hSb.2 hVb.1 hVb.2]
    by_cases hh6 : hh = 60
    · rw [show sectorRgb (hh + 240) S V = ⟨ttI hh S V, ppI S V, pvI V⟩ by
        rw [hh6]
        show sectorRgb 300 S V = _
        rw [sectorRgb]
        norm_num [ttI_sixty]]
      exact ⟨show |ttI hh S V - r| ≤ 3 from hmid,
        show |ppI S V - g| ≤ 3 from hmin,
        show |pvI V - b| ≤ 3 from hmax.trans (by norm_num)⟩
    · rw [show sectorRgb (hh + 240) S V = ⟨ttI hh S V, ppI S V, pvI V⟩ by
        rw [sectorRgb]
        rw [show (hh + 240) / 60 = 4 by omega, show (hh + 240) % 60 = hh by omega]
        norm_num]
      exact ⟨show |ttI hh S V - r| ≤ 3 from hmid,
        show |ppI S V - g| ≤ 3 from hmin,
        show |pvI V - b| ≤ 3 from hmax.trans (by norm_num)⟩

theorem roundTrip_case6_bound (r g b : ℤ) (hr0 : 0 ≤ r) (hrg : r < g) (hgb : g < b)
    (hb255 : b ≤ 255) :
    |(roundTrip r g b).r - r| ≤ 3 ∧ |(roundTrip r g b).g - g| ≤ 3 ∧
      |(roundTrip r g b).b - b| ≤ 3 := by
  have hd : 1 ≤ b - r := by omega
  have hdm : b - r ≤ b := by omega
  have hk0 : 0 ≤ g - r := by omega
  have hkd : g - r ≤ b - r := by omega
  have hdq0 : (0:ℚ) < (b:ℚ) - r := by
    have h2 : (r:ℚ) < (b:ℚ) := by exact_mod_cast hrg.trans hgb
    linarith
  have hrgq : (r:ℚ) < (g:ℚ) := by exact_mod_cast hrg
  have hgbq : (g:ℚ) < (b:ℚ) := by exact_mod_cast hgb
  set hh : ℤ := jsRound (60*((r:ℚ) - g)/((b:ℚ) - r)) with hhdef
  have hharg : 60*((r:ℚ) - g)/((b:ℚ) - r) = -(60*((g - r:ℤ):ℚ)/((b - r:ℤ):ℚ)) := by
    push_cast
    ring
  have hhc : |(hh:ℚ) + 60*((g - r:ℤ):ℚ)/((b - r:ℤ):ℚ)| ≤ 1/2 := by
    have h2 := abs_jsRound_sub_le (60*((r:ℚ) - g)/((b:ℚ) - r))
    nth_rewrite 2 [hharg] at h2
    rw [sub_neg_eq_add] at h2
    rw [hhdef]
    exact h2
  have hh0 : hh ≤ 0 := by
    have harg : 60*((r:ℚ) - g)/((b:ℚ) - r) ≤ ((0:ℤ):ℚ) := by
      push_cast
      apply div_nonpos_of_nonpos_of_nonneg (by linarith) (by linarith)
    have h2 := jsRound_mono harg
    rw [jsRound_intCast] at h2
    exact hhdef ▸ h2
  have hh60 : -60 ≤ hh := by
    have harg : ((-60:ℤ):ℚ) ≤ 60*((r:ℚ) - g)/((b:ℚ) - r) := by
      push_cast
      rw [neg_le, ← neg_div, ← neg_mul]
      rw [div_le_iff₀ hdq0]
      nlinarith
    have h2 := jsRound_mono harg
    rw [jsRound_intCast] at h2
    exact hhdef ▸ h2
  unfold roundTrip
  rw [rgbToHsv_case6 r g b hr0 hrg hgb]
  rw [show jsRound (((b:ℚ) - r)*100/b) = jsRound (((b - r:ℤ):ℚ)*100/(b:ℚ))
    from congrArg jsRound (by push_cast; ring)]
  set S : ℤ := jsRound (((b - r:ℤ):ℚ)*100/(b:ℚ)) with hSdef
  set V : ℤ := jsRound ((b:ℚ)*100/255) with hVdef
  change |(hsvToRgb ((hh + 240 : ℤ):ℚ) (S:ℚ) (V:ℚ)).r - r| ≤ 3 ∧
    |(hsvToRgb ((hh + 240 : ℤ):ℚ) (S:ℚ) (V:ℚ)).g - g| ≤ 3 ∧
    |(hsvToRgb ((hh + 240 : ℤ):ℚ) (S:ℚ) (V:ℚ)).b - b| ≤ 3
  have hVb := v_round_bounds b (by omega) hb255
  have hSb := s_round_bounds b (b - r) (by omega) hdm (by omega)
  rw [← hVdef] at hVb
  rw [← hSdef] at hSb
  by_cases hS0 : S = 0
  · rw [hS0]
    rw [hsvToRgb_gray (hh + 240) V hVb.1 hVb.2]
    have hgray := roundTrip_gray_channels r g b b (b - r) hd hdm hb255
      (by rw [← hSdef]; exact hS0)
      ⟨by omega, by omega⟩ ⟨by omega, by omega⟩ ⟨by omega, by omega⟩
    rw [← hVdef] at hgray
    exact ⟨hgray.1, hgray.2.1, hgray.2.2⟩
  · have hS1 : 1 ≤ S := by omega
    have hmax := pv_bound b hb255
    have hmin := pp_bound b (b - r) hd hdm hb255
    rw [← hVdef] at hmax
    rw [← hSdef, ← hVdef] at hmin
    have hmn : b - (b - r) = r := by ring
    rw [hmn] at hmin
    rw [hsvToRgb_eq_sectorRgb (hh + 240) S V (by omega) (by omega) hS1 hSb.2 hVb.1 hVb.2]
    by_cases hz : hh = 0
    · have hww : |((0:ℤ):ℚ) - 60*((g - r:ℤ):ℚ)/((b - r:ℤ):ℚ)| ≤ 1/2 := by
        have h3 := hhc
        rw [hz] at h3
        push_cast at h3 ⊢
        rw [show (0:ℚ) - 60*((g:ℚ) - r)/((b:ℚ) - r)
            = -((0:ℚ) + 60*((g:ℚ) - r)/((b:ℚ) - r)) by ring, abs_neg]
        exact h3
      have hmid := tt_bound b (b - r) (g - r) 0 hd hdm hb255 hk0 hkd le_rfl (by norm_num) hww
      rw [← hSdef, ← hVdef] at hmid
      have hmd : b - (b - r) + (g - r) = g := by ring
      rw [hmd] at hmid
      rw [ttI_zero] at hmid
      rw [hz]
      rw [show sectorRgb (0 + 240) S V = ⟨ppI S V, ppI S V, pvI V⟩ by
        rw [sectorRgb]
        norm_num [ttI_zero]]
      exact ⟨show |ppI S V - r| ≤ 3 from hmin,
        show |ppI S V - g| ≤ 3 from hmid,
        show |pvI V - b| ≤ 3 from hmax.trans (by norm_num)⟩
    · have hww : |((-hh:ℤ):ℚ) - 60*((g - r:ℤ):ℚ)/((b - r:ℤ):ℚ)| ≤ 1/2 := by
        push_cast
        rw [show -(hh:ℚ) - 60*((g:ℚ) - r)/((b:ℚ) - r)
            = -((hh:ℚ) + 60*((g:ℚ) - r)/((b:ℚ) - r)) by ring, abs_neg]
        have h3 := hhc
        push_cast at h3
        exact h3
      have hmid := tt_bound b (b - r) (g - r) (-hh) hd hdm hb255 hk0 hkd
        (by omega) (by omega) hww
      rw [← hSdef, ← hVdef] at hmid
      have hmd : b - (b - r) + (g - r) = g := by ring
      rw [hmd] at hmid
      rw [show sectorRgb (hh + 240) S V = ⟨ppI S V, ttI (-hh) S V, pvI V⟩ by
        rw [sectorRgb]
        rw [show (hh + 240) / 60 = 3 by omega, show (hh + 240) % 60 = hh + 60 by omega]
        norm_num [show (60:ℤ) - (hh + 60) = -hh by ring]]
      exact ⟨show |ppI S V - r| ≤ 3 from hmin,
        show |ttI (-hh) S V - g| ≤ 3 from hmid,
        show |pvI V - b| ≤ 3 from hmax.trans (by norm_num)⟩

theorem rgbToHsv_diag (r : ℤ) :
    rgbToHsv r r r = ⟨0, 0, jsRound ((r:ℚ)*100/255)⟩ := by
  simp only [rgbToHsv, max_self, min_self, sub_self, zero_div, ite_self]
  norm_num [Hsv.mk.injEq]
  refine ⟨?_, ?_, ?_⟩
  · norm_num [jsRound]
  · norm_num [jsRound]
  · exact congrArg jsRound (by ring)

theorem roundTrip_diag_bound (r : ℤ) (h0 : 0 ≤ r) (h255 : r ≤ 255) :
    |(roundTrip r r r).r - r| ≤ 3 ∧ |(roundTrip r r r).g - r| ≤ 3 ∧
      |(roundTrip r r r).b - r| ≤ 3 := by
  unfold roundTrip
  rw [rgbToHsv_diag r]
  set V : ℤ := jsRound ((r:ℚ)*100/255) with hVdef
  change |(hsvToRgb ((0 : ℤ):ℚ) ((0 : ℤ):ℚ) (V:ℚ)).r - r| ≤ 3 ∧
    |(hsvToRgb ((0 : ℤ):ℚ) ((0 : ℤ):ℚ) (V:ℚ)).g - r| ≤ 3 ∧
    |(hsvToRgb ((0 : ℤ):ℚ) ((0 : ℤ):ℚ) (V:ℚ)).b - r| ≤ 3
  have hVb := v_round_bounds r h0 h255
  rw [← hVdef] at hVb
  rw [hsvToRgb_gray 0 V hVb.1 hVb.2]
  have hpv := pv_bound r h255
  rw [← hVdef] at hpv
  have h3 := hpv.trans (by norm_num : (1:ℤ) ≤ 3)
  exact ⟨h3, h3, h3⟩

set_option maxHeartbeats 1000000 in
/-- Claim C4 (amended): for every integer channel triple in [0,255] the
round trip hsvToRgb (rgbToHsv (r, g, b)) reproduces the input within 3
units per channel; the ±1 stated by the spec is exceeded, see the
counterexample, and ±3 is tight. -/
theorem roundTrip_within_three (r g b : ℤ)
    (hr0 : 0 ≤ r) (hr1 : r ≤ 255) (hg0 : 0 ≤ g) (hg1 : g ≤ 255)
    (hb0 : 0 ≤ b) (hb1 : b ≤ 255) :
    |(roundTrip r g b).r - r| ≤ 3 ∧ |(roundTrip r g b).g - g| ≤ 3 ∧
      |(roundTrip r g b).b - b| ≤ 3 := by
  by_cases hA : g ≤ r ∧ b ≤ r
  · by_cases hA1 : b ≤ g
    · by_cases hA2 : b < r
      · exact roundTrip_case1_bound r g b hb0 hA1 hA.1 hA2 hr1
      · have hgr : g = r := by omega
        have hbr : b = r := by omega
        rw [hgr, hbr]
        exact roundTrip_diag_bound r hr0 hr1
    · exact roundTrip_case2_bound r g b hg0 (by omega) hA.2 hr1
  · by_cases hB : b ≤ g
    · have hrg : r < g := by omega
      by_cases hB1 : r ≤ b
      · exact roundTrip_case3_bound r g b hr0 hB1 hB hrg hg1
      · exact roundTrip_case4_bound r g b hb0 (by omega) hrg hg1
    · have hrb : r < b := by omega
      by_cases hC : g ≤ r
      · exact roundTrip_case5_bound r g b hg0 hC hrb hb1
      · exact roundTrip_case6_bound r g b hr0 (by omega) (by omega) hb1

theorem extractPixelData_length (data : ℕ → ℕ → Rgb) (width height cellSize : ℕ) :
    (extractPixelData data width height cellSize).length = jsCeilDiv height cellSize := by
  simp [extractPixelData]

theorem extractPixelData_row_length (data : ℕ → ℕ → Rgb) (width height cellSize : ℕ)
    (row : List Pixel) (hrow : row ∈ extractPixelData data width height cellSize) :
    row.length = jsCeilDiv width cellSize := by
  simp only [extractPixelData, List.mem_map] at hrow
  obtain ⟨gy, _, hrow⟩ := hrow
  rw [← hrow]
  simp

theorem jsCeilDiv_eq (a b : ℕ) (hb : 0 < b) : jsCeilDiv a b = (a + b - 1) / b := by
  unfold jsCeilDiv
  rcases Nat.eq_zero_or_pos a with ha | ha
  · subst ha
    rw [show ((0:ℕ):ℚ) = (0:ℚ) by norm_num, zero_div]
    rw [show ⌈(0:ℚ)⌉ = 0 by norm_num]
    rw [show (0 + b - 1)/b = 0 from Nat.div_eq_of_lt (by omega)]
    rfl
  · have hbq : (0:ℚ) < (b:ℚ) := by exact_mod_cast hb
    obtain ⟨n, hn⟩ : ∃ n, (a + b - 1)/b = n := ⟨_, rfl⟩
    obtain ⟨p, hp⟩ : ∃ p, b * n = p := ⟨_, rfl⟩
    have hdm2 : p + (a + b - 1) % b = a + b - 1 := by
      rw [← hp, ← hn]
      exact Nat.div_add_mod _ _
    have hmlt2 : (a + b - 1) % b + 1 ≤ b := Nat.mod_lt _ hb
    have hdm3 : p + (a + b - 1) % b + 1 = a + b := by omega
    have hdmq : (p:ℚ) + ((a + b - 1) % b : ℕ) + 1 = (a:ℚ) + b := by exact_mod_cast hdm3
    have hmq : (((a + b - 1) % b : ℕ):ℚ) + 1 ≤ (b:ℚ) := by exact_mod_cast hmlt2
    have hm0 : (0:ℚ) ≤ (((a + b - 1) % b : ℕ):ℚ) := by positivity
    have hpq : (n:ℚ) * b = (p:ℚ) := by rw [← hp]; push_cast; ring
    have hceil : ⌈(a:ℚ)/(b:ℚ)⌉ = ((n:ℕ):ℤ) := by
      rw [Int.ceil_eq_iff]
      constructor
      · push_cast
        exact (lt_div_iff₀ hbq).2 (by nlinarith)
      · push_cast
        rw [div_le_iff₀ hbq]
        linarith
    rw [hn, hceil]
    simp

theorem floor_toNat_lt_ceilDiv (z : ℚ) (n C : ℕ) (hC : 0 < C) (hz0 : 0 ≤ z)
    (hzn : z < n) : (⌊z / (C:ℚ)⌋).toNat < jsCeilDiv n C := by
  have hCq : (0:ℚ) < (C:ℚ) := by exact_mod_cast hC
  have hfl0 : 0 ≤ ⌊z / (C:ℚ)⌋ := Int.floor_nonneg.2 (by positivity)
  have hlt : ⌊z / (C:ℚ)⌋ < ⌈(n:ℚ)/(C:ℚ)⌉ := by
    rw [Int.floor_lt]
    calc z / (C:ℚ) < (n:ℚ)/C := by gcongr
      _ ≤ (⌈(n:ℚ)/(C:ℚ)⌉ : ℚ) := Int.le_ceil _
  unfold jsCeilDiv
  omega

theorem getPixelAt_resolves (data : ℕ → ℕ → Rgb) (W H C : ℕ) (x y : ℚ)
    (hC : 0 < C) (hx0 : 0 ≤ x) (hxW : x < W) (hy0 : 0 ≤ y) (hyH : y < H) :
    getPixelAt (extractPixelData data W H C) C x y
      = some (gridCell data W H C (⌊x / (C:ℚ)⌋).toNat (⌊y / (C:ℚ)⌋).toNat) := by
  have hCq : (0:ℚ) < (C:ℚ) := by exact_mod_cast hC
  have hgx0 : 0 ≤ ⌊x / (C:ℚ)⌋ := Int.floor_nonneg.2 (by positivity)
  have hgy0 : 0 ≤ ⌊y / (C:ℚ)⌋ := Int.floor_nonneg.2 (by positivity)
  have hgx := floor_toNat_lt_ceilDiv x W C hC hx0 hxW
  have hgy := floor_toNat_lt_ceilDiv y H C hC hy0 hyH
  have hlen : (extractPixelData data W H C).length = jsCeilDiv H C :=
    extractPixelData_length data W H C
  have hrow : (extractPixelData data W H C).getD (⌊y / (C:ℚ)⌋).toNat []
      = (List.range (jsCeilDiv W C)).map
          (fun gridX => gridCell data W H C gridX (⌊y / (C:ℚ)⌋).toNat) := by
    unfold extractPixelData
    rw [List.getD_eq_getElem?_getD, List.getElem?_map, List.getElem?_range hgy]
    rfl
  simp only [getPixelAt]
  rw [if_neg (by omega : ¬ (extractPixelData data W H C).length = 0)]
  rw [hrow]
  rw [if_pos]
  · rw [List.get?_map, List.get?_range hgx]
    rfl
  · refine ⟨hgy0, ?_, hgx0, ?_⟩
    · rw [hlen]
      omega
    · rw [List.length_map, List.length_range]
      omega

theorem lt_jsCeilDiv_mul_lt (g W C : ℕ) (hC : 0 < C) (hg : g < jsCeilDiv W C) :
    g * C < W := by
  rw [jsCeilDiv_eq W C hC] at hg
  have h1 : g + 1 ≤ (W + C - 1) / C := hg
  have h2 : (g + 1) * C ≤ W + C - 1 := (Nat.le_div_iff_mul_le hC).1 h1
  have h3 : (g + 1) * C = g * C + C := by ring
  obtain ⟨p, hp⟩ : ∃ p, g * C = p := ⟨_, rfl⟩
  rw [h3, hp] at h2
  rw [hp]
  omega

theorem centerSample_div (g C W : ℕ) (hC : 0 < C) (hgW : g * C < W) :
    min (g * C + C / 2) (W - 1) / C = g := by
  rcases le_or_lt (g * C + C / 2) (W - 1) with h | h
  · rw [min_eq_left h]
    rw [show g * C + C / 2 = C * g + C / 2 by ring, Nat.mul_add_div hC]
    have h2 : C / 2 / C = 0 := Nat.div_eq_of_lt (by omega)
    omega
  · rw [min_eq_right (by omega : W - 1 ≤ g * C + C / 2)]
    have hub : W - 1 < (g + 1) * C := by
      have h3 : (g + 1) * C = g * C + C := by ring
      have h4 : C / 2 < C := by omega
      omega
    have hlb : g * C ≤ W - 1 := by omega
    exact Nat.div_eq_of_lt_le hlb hub

/-- Claim C5: for every cell of the grid, the pixel the grid reports carries
exactly the rounded arithmetic mean of every raster pixel of the cell
rectangle (computed by calculateAverageColor's double sum), and its HSV is
derived from that mean: extractPixelData's center sample — clamped to the
raster on a last row or column narrower than half a cell, where it still
lands inside the same cell — reads the flat square applyPixelation
painted. -/
theorem pixelGrid_cell_average (data : ℕ → ℕ → Rgb) (W H C gx gy : ℕ)
    (hC : 0 < C) (hgx : gx < jsCeilDiv W C) (hgy : gy < jsCeilDiv H C) :
    ((pixelGrid data W H C).get? gy).bind (fun row => row.get? gx)
      = some (gridCell (applyPixelationAt data W H C) W H C gx gy) ∧
    (gridCell (applyPixelationAt data W H C) W H C gx gy).rgb
      = calculateAverageColor data W H (C * gx) (C * gy) C ∧
    (gridCell (applyPixelationAt data W H C) W H C gx gy).hsv
      = rgbToHsv (calculateAverageColor data W H (C * gx) (C * gy) C).r
          (calculateAverageColor data W H (C * gx) (C * gy) C).g
          (calculateAverageColor data W H (C * gx) (C * gy) C).b := by
  have hgxW : gx * C < W := lt_jsCeilDiv_mul_lt gx W C hC hgx
  have hgyH : gy * C < H := lt_jsCeilDiv_mul_lt gy H C hC hgy
  have hdivX : min (gx * C + C / 2) (W - 1) / C = gx := centerSample_div gx C W hC hgxW
  have hdivY : min (gy * C + C / 2) (H - 1) / C = gy := centerSample_div gy C H hC hgyH
  refine ⟨?_, ?_, ?_⟩
  · unfold pixelGrid extractPixelData
    rw [List.get?_map, List.get?_range hgy]
    simp only [Option.map_some', Option.some_bind]
    rw [List.get?_map, List.get?_range hgx]
    rfl
  · simp only [gridCell, applyPixelationAt]
    rw [hdivX, hdivY]
  · simp only [gridCell, applyPixelationAt]
    rw [hdivX, hdivY]

/-- Claim C4 (counterexample): (0, 108, 254) comes back from the HSV round
trip as (0, 111, 255): the green channel moves by 3, beyond the claimed ±1. -/
theorem roundTrip_exceeds_one_cex :
    roundTrip 0 108 254 = ⟨0, 111, 255⟩ ∧
    ¬ (|(roundTrip 0 108 254).g - 108| ≤ 1) := by
  have h : roundTrip 0 108 254 = ⟨0, 111, 255⟩ := by
    norm_num [roundTrip, rgbToHsv, hsvToRgb, jsRound, jsRem, truncQ, max_def, min_def]
  refine ⟨h, ?_⟩
  rw [h]
  decide

/-- Claim C4 (witness): the ±3 bound applied at the worst concrete input. -/
theorem roundTrip_within_three_witness :
    |(roundTrip 0 108 254).r - 0| ≤ 3 ∧ |(roundTrip 0 108 254).g - 108| ≤ 3 ∧
      |(roundTrip 0 108 254).b - 254| ≤ 3 :=
  roundTrip_within_three 0 108 254 (by norm_num) (by norm_num) (by norm_num)
    (by norm_num) (by norm_num) (by norm_num)

/-- Claim C5 (witness): a 100 x 100 raster at cell size 50 — cell (0,0)
reports the rounded mean of the top-left 50 x 50 block and derives its HSV
from it. -/
theorem pixelGrid_cell_average_witness :
    ((pixelGrid (fun _ _ => (⟨100, 150, 200⟩ : Rgb)) 100 100 50).get? 0).bind
        (fun row => row.get? 0) =
      some (gridCell (applyPixelationAt (fun _ _ => ⟨100, 150, 200⟩) 100 100 50)
        100 100 50 0 0) ∧
    (gridCell (applyPixelationAt (fun _ _ => (⟨100, 150, 200⟩ : Rgb)) 100 100 50)
        100 100 50 0 0).rgb =
      calculateAverageColor (fun _ _ => ⟨100, 150, 200⟩) 100 100 (50 * 0) (50 * 0) 50 ∧
    (gridCell (applyPixelationAt (fun _ _ => (⟨100, 150, 200⟩ : Rgb)) 100 100 50)
        100 100 50 0 0).hsv =
      rgbToHsv
        (calculateAverageColor (fun _ _ => ⟨100, 150, 200⟩) 100 100
          (50 * 0) (50 * 0) 50).r
        (calculateAverageColor (fun _ _ => ⟨100, 150, 200⟩) 100 100
          (50 * 0) (50 * 0) 50).g
        (calculateAverageColor (fun _ _ => ⟨100, 150, 200⟩) 100 100
          (50 * 0) (50 * 0) 50).b :=
  pixelGrid_cell_average (fun _ _ => ⟨100, 150, 200⟩) 100 100 50 0 0 (by norm_num)
    (by norm_num [jsCeilDiv_eq]) (by norm_num [jsCeilDiv_eq])

/-- Claim C6: a raster of width W and height H at cell size C yields a grid
of exactly ceil(H/C) rows each of ceil(W/C) cells, and every in-bounds
coordinate pair resolves by floor division to exactly the one cell
(floor(x/C), floor(y/C)) of that grid. -/
theorem grid_dims_and_resolution (data : ℕ → ℕ → Rgb) (W H C : ℕ) (x y : ℚ)
    (hC : 0 < C) (hx0 : 0 ≤ x) (hxW : x < W) (hy0 : 0 ≤ y) (hyH : y < H) :
    (pixelGrid data W H C).length = jsCeilDiv H C ∧
    (∀ row ∈ pixelGrid data W H C, row.length = jsCeilDiv W C) ∧
    ((jsCeilDiv W C : ℤ) = ⌈(W:ℚ)/(C:ℚ)⌉ ∧ (jsCeilDiv H C : ℤ) = ⌈(H:ℚ)/(C:ℚ)⌉) ∧
    getPixelAt (pixelGrid data W H C) C x y =
      some (gridCell (applyPixelationAt data W H C) W H C
        (⌊x / (C:ℚ)⌋).toNat (⌊y / (C:ℚ)⌋).toNat) := by
  refine ⟨extractPixelData_length _ _ _ _,
    fun row hrow => extractPixelData_row_length _ _ _ _ row hrow,
    ⟨?_, ?_⟩,
    getPixelAt_resolves _ _ _ _ _ _ hC hx0 hxW hy0 hyH⟩
  · exact Int.toNat_of_nonneg (Int.ceil_nonneg (by positivity))
  · exact Int.toNat_of_nonneg (Int.ceil_nonneg (by positivity))

/-- Claim C6 (witness): a 60 x 50 raster at cell size 50 gives a 1 x 2 grid
and the coordinate (55, 10) resolves to cell (1, 0). -/
theorem grid_dims_and_resolution_witness :
    (pixelGrid (fun _ _ => (⟨0, 0, 0⟩ : Rgb)) 60 50 50).length = jsCeilDiv 50 50 ∧
    (∀ row ∈ pixelGrid (fun _ _ => (⟨0, 0, 0⟩ : Rgb)) 60 50 50,
      row.length = jsCeilDiv 60 50) ∧
    ((jsCeilDiv 60 50 : ℤ) = ⌈((60:ℕ):ℚ)/((50:ℕ):ℚ)⌉ ∧
      (jsCeilDiv 50 50 : ℤ) = ⌈((50:ℕ):ℚ)/((50:ℕ):ℚ)⌉) ∧
    getPixelAt (pixelGrid (fun _ _ => (⟨0, 0, 0⟩ : Rgb)) 60 50 50) 50 55 10 =
      some (gridCell (applyPixelationAt (fun _ _ => ⟨0, 0, 0⟩) 60 50 50) 60 50 50
        (⌊(55:ℚ) / ((50:ℕ):ℚ)⌋).toNat (⌊(10:ℚ) / ((50:ℕ):ℚ)⌋).toNat) :=
  grid_dims_and_resolution (fun _ _ => ⟨0, 0, 0⟩) 60 50 50 55 10 (by norm_num)
    (by norm_num) (by norm_num) (by norm_num) (by norm_num)

/-! ## Map lemmas -/

theorem mapGet_mapSet_self {α : Type} (m : List (Key × α)) (k : Key) (v : α) :
    mapGet (mapSet m k v) k = some v := by
  induction m with
  | nil => simp [mapGet, mapSet]
  | cons kv rest ih =>
      obtain ⟨k', v'⟩ := kv
      by_cases h : k' = k
      · simp [mapSet, h, mapGet]
      · simp [mapSet, h, mapGet, ih]

theorem length_mapSet_absent {α : Type} (m : List (Key × α)) (k : Key) (v : α)
    (h : mapGet m k = none) : (mapSet m k v).length = m.length + 1 := by
  induction m with
  | nil => simp [mapSet]
  | cons kv rest ih =>
      obtain ⟨k', v'⟩ := kv
      by_cases hk : k' = k
      · simp [mapGet, hk] at h
      · simp only [mapGet, hk, if_neg, ite_false] at h
        simp [mapSet, hk, ih h]

theorem length_mapSet_le {α : Type} (m : List (Key × α)) (k : Key) (v : α) :
    (mapSet m k v).length ≤ m.length + 1 := by
  induction m with
  | nil => simp [mapSet]
  | cons kv rest ih =>
      obtain ⟨k', v'⟩ := kv
      by_cases hk : k' = k
      · simp [mapSet, hk]
      · simp only [mapSet, hk, ite_false, List.length_cons]
        omega

theorem length_mapDelete_le {α : Type} (m : List (Key × α)) (k : Key) :
    (mapDelete m k).length ≤ m.length := by
  induction m with
  | nil => simp [mapDelete]
  | cons kv rest ih =>
      obtain ⟨k', v'⟩ := kv
      by_cases hk : k' = k
      · simp only [mapDelete, hk, ite_true, List.length_cons]
        omega
      · simp only [mapDelete, hk, ite_false, List.length_cons]
        omega

theorem mapGet_mapDelete_self {α : Type} (m : List (Key × α)) (k : Key) :
    mapGet (mapDelete m k) k = none := by
  induction m with
  | nil => simp [mapDelete, mapGet]
  | cons kv rest ih =>
      obtain ⟨k', v'⟩ := kv
      by_cases hk : k' = k
      · simp [mapDelete, hk, ih]
      · simp [mapDelete, hk, mapGet, ih]

theorem mapGet_mapDelete_ne {α : Type} (m : List (Key × α)) (k k0 : Key)
    (h : k ≠ k0) : mapGet (mapDelete m k0) k = mapGet m k := by
  induction m with
  | nil => simp [mapDelete]
  | cons kv rest ih =>
      obtain ⟨k', v'⟩ := kv
      by_cases hk : k' = k0
      · subst hk
        have hne : ¬ k' = k := fun he => h he.symm
        simp [mapDelete, mapGet, hne, ih]
      · simp only [mapDelete, hk, ite_false]
        by_cases hk2 : k' = k
        · simp [mapGet, hk2]
        · simp [mapGet, hk2, ih]

theorem listDelete_not_mem (l : List Key) (k : Key) (h : k ∉ l) :
    listDelete l k = l := by
  induction l with
  | nil => rfl
  | cons k' rest ih =>
      have h1 : k' ≠ k := fun he => h (he ▸ List.mem_cons_self k' rest)
      have h2 : k ∉ rest := fun hm => h (List.mem_cons_of_mem _ hm)
      simp [listDelete, h1, ih h2]

theorem not_mem_listDelete (l : List Key) (k : Key) : k ∉ listDelete l k := by
  induction l with
  | nil => simp [listDelete]
  | cons k' rest ih =>
      by_cases hk : k' = k
      · simpa [listDelete, hk] using ih
      · simp [listDelete, hk, ih]
        exact fun he => hk he.symm

/-! ## Engine lemmas -/

theorem cleanupSynth_absent (s : EngineState) (id : Key)
    (h : mapGet s.synths id = none) : cleanupSynth s id = s := by
  simp [cleanupSynth, h]

theorem stopScanSound_absent (s : EngineState) (k : Key)
    (habs : mapGet s.synths k = none) (hscan : k ∉ s.scanSounds) :
    stopScanSound s k = s := by
  simp only [stopScanSound, habs]
  rw [listDelete_not_mem _ _ hscan]

theorem mapGet_stopScanSound_self (s : EngineState) (k : Key) :
    mapGet (stopScanSound s k).synths k = none := by
  unfold stopScanSound
  cases h : mapGet s.synths k with
  | none => simp [h]
  | some v => simp [h, cleanupSynth, mapGet_mapDelete_self]

theorem not_mem_stopScanSound_scanSounds (s : EngineState) (k : Key) :
    k ∉ (stopScanSound s k).scanSounds := by
  unfold stopScanSound
  cases h : mapGet s.synths k with
  | none => simpa [h] using not_mem_listDelete s.scanSounds k
  | some v => simpa [h, cleanupSynth] using not_mem_listDelete _ k

theorem mapGet_stopScanSound_ne (s : EngineState) (k k0 : Key) (h : k ≠ k0) :
    mapGet (stopScanSound s k0).synths k = mapGet s.synths k := by
  unfold stopScanSound
  cases hm : mapGet s.synths k0 with
  | none => simp [hm]
  | some v => simp [hm, cleanupSynth, mapGet_mapDelete_ne _ _ _ h]

theorem foldl_stopScanSound_preserves (ks : List Key) (s : EngineState) (k : Key)
    (h : k ∉ ks) : mapGet ((ks.foldl stopScanSound s).synths) k = mapGet s.synths k := by
  induction ks generalizing s with
  | nil => rfl
  | cons k0 rest ih =>
      have h1 : k ≠ k0 := fun he => h (he ▸ List.mem_cons_self k0 rest)
      have h2 : k ∉ rest := fun hm => h (List.mem_cons_of_mem _ hm)
      rw [List.foldl_cons, ih _ h2, mapGet_stopScanSound_ne _ _ _ h1]

theorem stopScanSound_synths_le (s : EngineState) (k : Key) :
    (stopScanSound s k).synths.length ≤ s.synths.length := by
  unfold stopScanSound
  cases h : mapGet s.synths k with
  | none => simp [h]
  | some v => simpa [h, cleanupSynth] using length_mapDelete_le s.synths k

theorem createSynth_synths_le (s : EngineState) (hsv : Hsv) (id : Key) :
    (createSynth s hsv id).1.synths.length ≤ s.synths.length + 1 := by
  unfold createSynth
  by_cases hinit : s.isInitialized = false
  · simp [hinit]
  · simp only [hinit, ite_false]
    exact length_mapSet_le s.synths id _

theorem startScanSound_synths_le (s : EngineState) (hsv : Hsv) (k : Key) :
    (startScanSound s hsv k).synths.length ≤ s.synths.length + 1 := by
  simp only [startScanSound]
  split
  · omega
  · have h1 := stopScanSound_synths_le s k
    have h2 := createSynth_synths_le (stopScanSound s k) hsv k
    split
    · show (createSynth (stopScanSound s k) hsv k).1.synths.length ≤ s.synths.length + 1
      omega
    · omega

theorem foldl_firePending_le (ts : List PendingTask) (c : CanvasState) :
    (ts.foldl firePending c).engine.synths.length ≤ c.engine.synths.length + ts.length := by
  induction ts generalizing c with
  | nil => simp
  | cons t rest ih =>
      have h3 : (firePending c t).engine.synths.length ≤ c.engine.synths.length + 1 :=
        startScanSound_synths_le c.engine t.hsv (Key.colIdx c.scanColumn t.index)
      have h2 := ih (firePending c t)
      simp only [List.foldl_cons, List.length_cons]
      omega

/-! ## Scan batch counting -/

theorem length_filterMap_multiples (f : ℕ → Option PendingTask) (n s : ℕ)
    (hs : 0 < s) (hf : ∀ i, i < n → ((f i).isSome ↔ i % s = 0)) :
    ((List.range n).filterMap f).length = (n + s - 1) / s := by
  induction n with
  | zero =>
      simp [Nat.div_eq_of_lt (by omega : s - 1 < s)]
  | succ n ih =>
      rw [List.range_succ, List.filterMap_append, List.length_append]
      rw [ih (fun i hi => hf i (by omega))]
      have hlast : (List.filterMap f [n]).length = if n % s = 0 then 1 else 0 := by
        cases hfn : f n with
        | none =>
            have : ¬ n % s = 0 := by
              intro hmod
              have := (hf n (by omega)).2 hmod
              rw [hfn] at this
              simp at this
            simp [hfn, this]
        | some t =>
            have : n % s = 0 := by
              apply (hf n (by omega)).1
              rw [hfn]
              rfl
            simp [hfn, this]
      rw [hlast]
      have hsum : n + 1 + s - 1 = (n + s - 1) + 1 := by omega
      rw [hsum, Nat.succ_div]
      have hdvd : s ∣ n + s - 1 + 1 ↔ n % s = 0 := by
        have h2 : n + s - 1 + 1 = n + s := by omega
        rw [h2, Nat.dvd_add_self_right, Nat.dvd_iff_mod_eq_zero]
      by_cases hmod : n % s = 0
      · rw [if_pos hmod, if_pos (hdvd.2 hmod)]
      · rw [if_neg hmod, if_neg (fun hd => hmod (hdvd.1 hd))]

theorem scanStep_pos (count : ℕ) : 0 < scanStep count := by
  simp [scanStep]

theorem scanTasks_length (pixels : List (Option Hsv))
    (hall : ∀ p ∈ pixels, p ≠ none) :
    (scanTasks pixels).length =
      (pixels.length + scanStep pixels.length - 1) / scanStep pixels.length := by
  simp only [scanTasks]
  apply length_filterMap_multiples _ _ _ (scanStep_pos pixels.length)
  intro i hi
  have hmem : pixels.getD i none ∈ pixels := by
    rw [List.getD_eq_getElem pixels none hi]
    exact List.getElem_mem hi
  obtain ⟨hsv, hx⟩ : ∃ hsv, pixels.getD i none = some hsv := by
    cases hp : pixels.getD i none with
    | none => exact absurd hp (hall _ hmem)
    | some hsv => exact ⟨hsv, rfl⟩
  rw [hx]
  by_cases hmod : i % scanStep pixels.length = 0
  · simp [hmod]
  · simp [hmod]

theorem scanBatch_le_nine (n : ℕ) : (n + scanStep n - 1) / scanStep n ≤ 9 := by
  have hs : 0 < scanStep n := scanStep_pos n
  have hbound : n ≤ 9 * scanStep n := by
    by_cases h : n / 5 ≤ 1
    · have : scanStep n = 1 := by
        simp only [scanStep]
        omega
      omega
    · have : scanStep n = n / 5 := by
        simp only [scanStep]
        omega
      omega
  have hlt : (n + scanStep n - 1) / scanStep n < 10 :=
    (Nat.div_lt_iff_lt_mul hs).2 (by omega)
  omega

/-- Claim C1 (amended): the batch handleScanMove schedules over a column of
count pixels has exactly ceil(count / step) members for the floor-derived
stride step = max(1, floor(count / 5)); that batch size is bounded by 9,
not by the cap 5, and once every scheduled onset has fired the live voice
count has grown by at most that batch size. -/
theorem scan_stride_floor_batch_bound (pixels : List (Option Hsv))
    (hall : ∀ p ∈ pixels, p ≠ none) :
    (scanTasks pixels).length =
      (pixels.length + scanStep pixels.length - 1) / scanStep pixels.length ∧
    (scanTasks pixels).length ≤ 9 ∧
    ∀ c : CanvasState,
      ((scanTasks pixels).foldl firePending c).engine.synths.length ≤
        c.engine.synths.length + 9 := by
  have hlen := scanTasks_length pixels hall
  have hnine : (scanTasks pixels).length ≤ 9 := by
    rw [hlen]
    exact scanBatch_le_nine pixels.length
  refine ⟨hlen, hnine, fun c => ?_⟩
  have := foldl_firePending_le (scanTasks pixels) c
  omega

theorem scan_stride_floor_batch_bound_witness :
    (scanTasks (List.replicate 3 (some (⟨0, 100, 100⟩ : Hsv)))).length =
      ((List.replicate 3 (some (⟨0, 100, 100⟩ : Hsv))).length +
        scanStep (List.replicate 3 (some (⟨0, 100, 100⟩ : Hsv))).length - 1) /
        scanStep (List.replicate 3 (some (⟨0, 100, 100⟩ : Hsv))).length ∧
    (scanTasks (List.replicate 3 (some (⟨0, 100, 100⟩ : Hsv)))).length ≤ 9 ∧
    ∀ c : CanvasState,
      ((scanTasks (List.replicate 3 (some (⟨0, 100, 100⟩ : Hsv)))).foldl
          firePending c).engine.synths.length ≤ c.engine.synths.length + 9 :=
  scan_stride_floor_batch_bound (List.replicate 3 (some ⟨0, 100, 100⟩))
    (by decide)

/-- Claim C1 (counterexample): an 8-row column gives stride
max(1, floor(8/5)) = 1 — not ceil(8/5) = 2 — so all 8 onsets are scheduled
and once they fire 8 voices are live at once, exceeding the cap 5. -/
theorem scan_batch_exceeds_cap_cex :
    scanStep 8 = 1 ∧
    jsCeilDiv 8 5 = 2 ∧
    (scanTasks (List.replicate 8 (some (⟨0, 100, 100⟩ : Hsv)))).length = 8 ∧
    (fireAll (handleScanMove ⟨-1, setMode (init true freshEngine) Mode.scan, []⟩ 0
        (List.replicate 8 (some ⟨0, 100, 100⟩)))).engine.synths.length = 8 ∧
    ¬ ((fireAll (handleScanMove ⟨-1, setMode (init true freshEngine) Mode.scan, []⟩ 0
        (List.replicate 8 (some ⟨0, 100, 100⟩)))).engine.synths.length ≤ 5) := by
  refine ⟨by decide, ?_, by decide, by decide, by decide⟩
  rw [jsCeilDiv_eq 8 5 (by norm_num)]

/-- Claim C2 (witnessing trace): moving from column 0 to column 1 stops
nothing — stopScanSound is called with the raw number 0 while the voices
were keyed by the string "0_0" — so the old column voice keeps sounding
next to the new column's; and a deferred onset scheduled for column 0 that
fires after the change starts a voice keyed to the current column 1
carrying column 0's color. -/
theorem scan_stop_misskey_trace :
    ((handleScanMove (fireAll (handleScanMove
          ⟨-1, setMode (init true freshEngine) Mode.scan, []⟩ 0
          [some ⟨0, 100, 100⟩])) 1
        [some ⟨120, 100, 100⟩]).engine.synths.map Prod.fst = [Key.colIdx 0 0]) ∧
    ((fireAll (handleScanMove (fireAll (handleScanMove
          ⟨-1, setMode (init true freshEngine) Mode.scan, []⟩ 0
          [some ⟨0, 100, 100⟩])) 1
        [some ⟨120, 100, 100⟩])).engine.synths.map Prod.fst =
      [Key.colIdx 0 0, Key.colIdx 1 0]) ∧
    ((firePending (handleScanMove (handleScanMove
            ⟨-1, setMode (init true freshEngine) Mode.scan, []⟩ 0
            [some ⟨0, 100, 100⟩]) 1 [some ⟨120, 100, 100⟩])
          ((handleScanMove (handleScanMove
            ⟨-1, setMode (init true freshEngine) Mode.scan, []⟩ 0
            [some ⟨0, 100, 100⟩]) 1 [some ⟨120, 100, 100⟩]).pending.getD 0
            ⟨0, 0, ⟨0, 0, 0⟩⟩)).engine.synths.map
        (fun kv => (kv.1, kv.2.hsv)) = [(Key.colIdx 1 0, (⟨0, 100, 100⟩ : Hsv))]) := by
  refine ⟨by decide, by decide, by decide⟩

/-! ## stopAllScanSounds and stop idempotence -/

/-- Claim C7 (amended): stopAllScanSounds empties the scanSounds set, but it
only stops voices whose keys are in that set — any voice under another key,
in particular a still-sounding transient playNote voice, keeps its entry in
the live synths map. -/
theorem stopAllScanSounds_clears_scan_only (s : EngineState) (k : Key)
    (hk : k ∉ s.scanSounds) :
    (stopAllScanSounds s).scanSounds = [] ∧
    mapGet (stopAllScanSounds s).synths k = mapGet s.synths k := by
  refine ⟨rfl, ?_⟩
  exact foldl_stopScanSound_preserves s.scanSounds s k hk

theorem stopAllScanSounds_clears_scan_only_witness :
    (stopAllScanSounds (playNote (init true freshEngine) ⟨0, 100, 100⟩ 0 none).1).scanSounds
        = [] ∧
    mapGet (stopAllScanSounds
        (playNote (init true freshEngine) ⟨0, 100, 100⟩ 0 none).1).synths (Key.note 0) =
      mapGet (playNote (init true freshEngine) ⟨0, 100, 100⟩ 0 none).1.synths
        (Key.note 0) :=
  stopAllScanSounds_clears_scan_only
    (playNote (init true freshEngine) ⟨0, 100, 100⟩ 0 none).1 (Key.note 0) (by decide)

/-- Claim C7 (counterexample): a transient playNote voice that is still
sounding when stopAllScanSounds runs survives it, so the pool is not left
with zero live voices. -/
theorem stopAll_leaves_note_voice_cex :
    (stopAllScanSounds (playNote (init true freshEngine) ⟨0, 100, 100⟩ 0
        none).1).synths.length = 1 ∧
    ¬ ((stopAllScanSounds (playNote (init true freshEngine) ⟨0, 100, 100⟩ 0
        none).1).synths.length = 0) := by
  refine ⟨by decide, by decide⟩

/-- Claim C8: stopping a key with no live voice leaves the state unchanged,
a cleanup arriving after the voice is already gone is a no-op, and stopping
the same key twice equals stopping it once — none of these raises an
error. -/
theorem stop_absent_idempotent_noop (s : EngineState) (k : Key)
    (habs : mapGet s.synths k = none) (hscan : k ∉ s.scanSounds) :
    stopScanSound s k = s ∧ cleanupSynth s k = s ∧
    ∀ s' : EngineState, stopScanSound (stopScanSound s' k) k = stopScanSound s' k :=
  ⟨stopScanSound_absent s k habs hscan, cleanupSynth_absent s k habs,
    fun s' => stopScanSound_absent (stopScanSound s' k) k
      (mapGet_stopScanSound_self s' k) (not_mem_stopScanSound_scanSounds s' k)⟩

theorem stop_absent_idempotent_noop_witness :
    stopScanSound freshEngine (Key.note 0) = freshEngine ∧
    cleanupSynth freshEngine (Key.note 0) = freshEngine ∧
    ∀ s' : EngineState, stopScanSound (stopScanSound s' (Key.note 0)) (Key.note 0)
        = stopScanSound s' (Key.note 0) :=
  stop_absent_idempotent_noop freshEngine (Key.note 0) rfl (by simp [freshEngine])

/-! ## Initialization failure -/

theorem playNote_adds (s : EngineState) (hsv : Hsv) (n : ℕ) (d : Option ℚ)
    (hinit : s.isInitialized = true) (habs : mapGet s.synths (Key.note n) = none) :
    (playNote s hsv n d).1.synths.length = s.synths.length + 1 := by
  simp only [playNote, createSynth, hinit]
  norm_num
  exact length_mapSet_absent s.synths (Key.note n) _ habs

/-- Claim C9 (amended): when the audio backend fails to start, the catch
block still flags the engine initialized — so it reports ready — but the
guard in playNote therefore never fires again and a play call is not a
no-op: it stores and triggers a fresh voice on the unbuilt audio graph. -/
theorem init_failure_still_plays (s : EngineState) (hsv : Hsv) (n : ℕ)
    (d : Option ℚ) (habs : mapGet s.synths (Key.note n) = none) :
    (init false s).isInitialized = true ∧
    (init false s).hasReverb = s.hasReverb ∧
    (playNote (init false s) hsv n d).1.synths.length = s.synths.length + 1 := by
  refine ⟨rfl, rfl, ?_⟩
  exact playNote_adds (init false s) hsv n d rfl habs

theorem init_failure_still_plays_witness :
    (init false freshEngine).isInitialized = true ∧
    (init false freshEngine).hasReverb = freshEngine.hasReverb ∧
    (playNote (init false freshEngine) ⟨0, 100, 100⟩ 0 none).1.synths.length =
      freshEngine.synths.length + 1 :=
  init_failure_still_plays freshEngine ⟨0, 100, 100⟩ 0 none rfl

/-- Claim C9 (counterexample): after a failed init the engine reports
itself initialized, and a subsequent playNote is not a no-op — it adds a
live voice to the pool of the non-functional backend. -/
theorem init_failure_playNote_not_noop_cex :
    (init false freshEngine).isInitialized = true ∧
    (init false freshEngine).hasReverb = false ∧
    (playNote (init false freshEngine) ⟨0, 100, 100⟩ 0 none).1.synths.length = 1 ∧
    ¬ ((playNote (init false freshEngine) ⟨0, 100, 100⟩ 0 none).1 =
        init false freshEngine) := by
  refine ⟨by decide, by decide, by decide, ?_⟩
  intro h
  have h2 : (playNote (init false freshEngine) ⟨0, 100, 100⟩ 0
      none).1.synths.length = 1 := by decide
  have h3 : (init false freshEngine).synths.length = 0 := by decide
  rw [h] at h2
  omega

/-! ## Engine frequency map vs the mapper -/

/-- Claim C10 (amended): the frequency the engine actually synthesizes with
is its own linear map 200 + (hue/360) * 1800 — createSynth stores exactly
that for every voice — not the mapper's scale-quantized value. -/
theorem engine_frequency_is_linear (s : EngineState) (hsv : Hsv) (id : Key)
    (hinit : s.isInitialized = true) :
    mapGet (createSynth s hsv id).1.synths id =
      some ⟨hsvToFrequency hsv.h, hsvToVolume hsv.v, hsv⟩ ∧
    hsvToFrequency hsv.h = 200 + (hsv.h : ℚ) / 360 * 1800 := by
  constructor
  · simp only [createSynth, hinit]
    norm_num
    exact mapGet_mapSet_self s.synths id _
  · simp only [hsvToFrequency]
    norm_num

theorem engine_frequency_is_linear_witness :
    mapGet (createSynth (init true freshEngine) ⟨0, 100, 100⟩ (Key.note 0)).1.synths
        (Key.note 0) =
      some ⟨hsvToFrequency (0 : ℤ), hsvToVolume (100 : ℤ), ⟨0, 100, 100⟩⟩ ∧
    hsvToFrequency ((0 : ℤ) : ℚ) = 200 + (((0 : ℤ) : ℚ)) / 360 * 1800 :=
  engine_frequency_is_linear (init true freshEngine) ⟨0, 100, 100⟩ (Key.note 0) rfl

/-! ## Mapper frequency evaluation -/

theorem mapHueToFrequency_eval (cs : ScaleName) (base hue : ℚ) (si oct : ℤ)
    (sem : ℕ)
    (h1 : ⌊hue / 360 * ((musicalScales cs).length : ℚ)⌋ = si)
    (h2 : (musicalScales cs).getD
        ((si % ((musicalScales cs).length : ℤ)).toNat) 0 = sem)
    (h3 : ⌊hue / 360 * 3⌋ = oct) :
    mapHueToFrequency cs base hue =
      max 200 (min 2000 ((base : ℝ) *
        (2 : ℝ) ^ (((oct * 12 + (sem : ℤ) : ℤ) : ℝ) / 12))) := by
  simp only [mapHueToFrequency, h1, h2, h3]

theorem mapHueToFrequency_window (cs : ScaleName) (base hue : ℚ) :
    200 ≤ mapHueToFrequency cs base hue ∧ mapHueToFrequency cs base hue ≤ 2000 := by
  simp only [mapHueToFrequency]
  exact ⟨le_max_left _ _, max_le (by norm_num) (min_le_left _ _)⟩

theorem rpow_div12_pow12 (x : ℝ) : ((2:ℝ) ^ (x / 12)) ^ (12:ℕ) = (2:ℝ) ^ x := by
  rw [← Real.rpow_natCast ((2:ℝ) ^ (x / 12)) 12,
    ← Real.rpow_mul (by norm_num : (0:ℝ) ≤ 2)]
  rw [show x / 12 * ((12:ℕ):ℝ) = x by push_cast; field_simp]

theorem clamp220_eq (k : ℕ) (hk : k ≤ 33) :
    max 200 (min 2000 ((220:ℝ) * (2:ℝ) ^ ((k:ℝ) / 12))) =
      220 * (2:ℝ) ^ ((k:ℝ) / 12) := by
  have hx : (0:ℝ) < (2:ℝ) ^ ((k:ℝ) / 12) := Real.rpow_pos_of_pos (by norm_num) _
  have hone : (1:ℝ) ≤ (2:ℝ) ^ ((k:ℝ) / 12) := by
    have := Real.rpow_le_rpow_of_exponent_le (by norm_num : (1:ℝ) ≤ 2)
      (by positivity : (0:ℝ) ≤ (k:ℝ) / 12)
    rwa [Real.rpow_zero] at this
  have hlower : (200:ℝ) ≤ 220 * (2:ℝ) ^ ((k:ℝ) / 12) := by nlinarith
  have hupper : (220:ℝ) * (2:ℝ) ^ ((k:ℝ) / 12) ≤ 2000 := by
    have hle33 : (2:ℝ) ^ ((k:ℝ) / 12) ≤ (2:ℝ) ^ ((33:ℝ) / 12) := by
      apply Real.rpow_le_rpow_of_exponent_le (by norm_num)
      have : (k:ℝ) ≤ 33 := by exact_mod_cast hk
      linarith
    have h33 : (2:ℝ) ^ ((33:ℝ) / 12) ≤ 100 / 11 := by
      by_contra hgt
      push_neg at hgt
      have hp : ((100:ℝ) / 11) ^ (12:ℕ) < ((2:ℝ) ^ ((33:ℝ) / 12)) ^ (12:ℕ) :=
        pow_lt_pow_left₀ hgt (by norm_num) (by norm_num)
      rw [rpow_div12_pow12] at hp
      rw [show ((33:ℝ)) = ((33:ℕ):ℝ) by norm_num, Real.rpow_natCast] at hp
      rw [div_pow, div_lt_iff₀ (by positivity)] at hp
      norm_num at hp
    nlinarith
  rw [min_eq_right hupper, max_eq_right hlower]

theorem mapHue_pentatonic_eval (hue : ℚ) (si oc : ℤ) (sem : ℕ)
    (h1 : ⌊hue / 360 * ((musicalScales ScaleName.pentatonic).length : ℚ)⌋ = si)
    (h2 : (musicalScales ScaleName.pentatonic).getD
        ((si % ((musicalScales ScaleName.pentatonic).length : ℤ)).toNat) 0 = sem)
    (h3 : ⌊hue / 360 * 3⌋ = oc) (hoc0 : 0 ≤ oc) (hoc2 : oc ≤ 2) (hsem : sem ≤ 9) :
    mapHueToFrequency ScaleName.pentatonic 220 hue =
      220 * (2:ℝ) ^ (((oc.toNat * 12 + sem : ℕ) : ℝ) / 12) := by
  rw [mapHueToFrequency_eval ScaleName.pentatonic 220 hue si oc sem h1 h2 h3]
  have hz : oc * 12 + (sem:ℤ) = ((oc.toNat * 12 + sem : ℕ) : ℤ) := by
    push_cast [Int.toNat_of_nonneg hoc0]
    ring
  have hcast : ((oc * 12 + (sem:ℤ) : ℤ) : ℝ) = ((oc.toNat * 12 + sem : ℕ) : ℝ) := by
    rw [hz]
    push_cast
    ring
  rw [hcast, show (((220:ℚ)) : ℝ) = (220:ℝ) by norm_num]
  exact clamp220_eq (oc.toNat * 12 + sem) (by omega)

/-- Claim C3 (amended): every result of mapHueToFrequency lies in the
configured 200..2000 Hz window (the final clamp guarantees it for every
scale and base), and in the default configuration — pentatonic scale, base
220 Hz — the clamp is inert and the result is exactly an in-scale
equal-temperament pitch 220 * 2^((12*octave+semitone)/12); for other
configurations the clamp can replace the computed pitch by the out-of-scale
window edge. -/
theorem mapHue_window_and_default_scale (hue : ℚ) (h0 : 0 ≤ hue) (h1 : hue < 360) :
    (∀ (cs : ScaleName) (base : ℚ), 200 ≤ mapHueToFrequency cs base hue ∧
        mapHueToFrequency cs base hue ≤ 2000) ∧
    ∃ sem ∈ musicalScales ScaleName.pentatonic, ∃ oct : ℕ, oct ≤ 2 ∧
      mapHueToFrequency ScaleName.pentatonic 220 hue =
        220 * (2:ℝ) ^ (((oct * 12 + sem : ℕ) : ℝ) / 12) := by
  refine ⟨fun cs base => mapHueToFrequency_window cs base hue, ?_⟩
  have hnh0 : (0:ℚ) ≤ hue / 360 := by positivity
  have hnh1 : hue / 360 < 1 := by
    rw [div_lt_one (by norm_num : (0:ℚ) < 360)]
    exact h1
  have hlen5 : ((musicalScales ScaleName.pentatonic).length : ℚ) = 5 := by
    norm_num [musicalScales]
  have hoc0 : 0 ≤ ⌊hue / 360 * 3⌋ := Int.floor_nonneg.2 (by positivity)
  have hoc2 : ⌊hue / 360 * 3⌋ ≤ 2 := by
    have h3 : ⌊hue / 360 * 3⌋ < 3 := Int.floor_lt.2 (by push_cast; nlinarith)
    omega
  have hsi0 : 0 ≤ ⌊hue / 360 * ((musicalScales ScaleName.pentatonic).length : ℚ)⌋ :=
    Int.floor_nonneg.2 (by rw [hlen5]; positivity)
  have hsi5 : ⌊hue / 360 * ((musicalScales ScaleName.pentatonic).length : ℚ)⌋ < 5 := by
    apply Int.floor_lt.2
    rw [hlen5]
    push_cast
    nlinarith
  obtain ⟨c, hcdef⟩ : ∃ c,
      ⌊hue / 360 * ((musicalScales ScaleName.pentatonic).length : ℚ)⌋ = c := ⟨_, rfl⟩
  rw [hcdef] at hsi0 hsi5
  interval_cases c
  · exact ⟨0, by decide, ⌊hue / 360 * 3⌋.toNat, by omega,
      mapHue_pentatonic_eval hue 0 ⌊hue / 360 * 3⌋ 0 hcdef (by decide) rfl
        hoc0 hoc2 (by norm_num)⟩
  · exact ⟨2, by decide, ⌊hue / 360 * 3⌋.toNat, by omega,
      mapHue_pentatonic_eval hue 1 ⌊hue / 360 * 3⌋ 2 hcdef (by decide) rfl
        hoc0 hoc2 (by norm_num)⟩
  · exact ⟨4, by decide, ⌊hue / 360 * 3⌋.toNat, by omega,
      mapHue_pentatonic_eval hue 2 ⌊hue / 360 * 3⌋ 4 hcdef (by decide) rfl
        hoc0 hoc2 (by norm_num)⟩
  · exact ⟨7, by decide, ⌊hue / 360 * 3⌋.toNat, by omega,
      mapHue_pentatonic_eval hue 3 ⌊hue / 360 * 3⌋ 7 hcdef (by decide) rfl
        hoc0 hoc2 (by norm_num)⟩
  · exact ⟨9, by decide, ⌊hue / 360 * 3⌋.toNat, by omega,
      mapHue_pentatonic_eval hue 4 ⌊hue / 360 * 3⌋ 9 hcdef (by decide) rfl
        hoc0 hoc2 (by norm_num)⟩

theorem mapHue_window_and_default_scale_witness :
    (∀ (cs : ScaleName) (base : ℚ), 200 ≤ mapHueToFrequency cs base 90 ∧
        mapHueToFrequency cs base 90 ≤ 2000) ∧
    ∃ sem ∈ musicalScales ScaleName.pentatonic, ∃ oct : ℕ, oct ≤ 2 ∧
      mapHueToFrequency ScaleName.pentatonic 220 90 =
        220 * (2:ℝ) ^ (((oct * 12 + sem : ℕ) : ℝ) / 12) :=
  mapHue_window_and_default_scale 90 (by norm_num) (by norm_num)

/-- Claim C3 (counterexample): with the chromatic scale and the valid base
frequency 300 Hz (setBaseFrequency leaves 300 unchanged), hue 350 computes
300 * 2^(35/12) which exceeds 2000 Hz, so the clamp returns exactly
2000 Hz — and 2000 Hz is not 300 * 2^(j/12) for any integer j, hence
corresponds to no semitone offset of any scale. -/
theorem mapHue_out_of_scale_cex :
    setBaseFrequency 300 = 300 ∧
    mapHueToFrequency ScaleName.chromatic 300 350 = 2000 ∧
    ∀ j : ℤ, (300:ℝ) * (2:ℝ) ^ ((j:ℝ) / 12) ≠ 2000 := by
  refine ⟨by norm_num [setBaseFrequency], ?_, ?_⟩
  · rw [mapHueToFrequency_eval ScaleName.chromatic 300 350 11 2 11
      (by norm_num [musicalScales]) (by decide) (by norm_num)]
    rw [show ((2 * 12 + ((11:ℕ):ℤ) : ℤ) : ℝ) = (35:ℝ) by norm_num]
    have hgt : (2000:ℝ) ≤ ((300:ℚ):ℝ) * (2:ℝ) ^ ((35:ℝ) / 12) := by
      have hx : (0:ℝ) < (2:ℝ) ^ ((35:ℝ) / 12) := Real.rpow_pos_of_pos (by norm_num) _
      have hq : (20:ℝ) / 3 < (2:ℝ) ^ ((35:ℝ) / 12) := by
        by_contra hle
        push_neg at hle
        have hp : ((2:ℝ) ^ ((35:ℝ) / 12)) ^ (12:ℕ) ≤ ((20:ℝ) / 3) ^ (12:ℕ) :=
          pow_le_pow_left₀ hx.le hle 12
        rw [rpow_div12_pow12] at hp
        rw [show ((35:ℝ)) = ((35:ℕ):ℝ) by norm_num, Real.rpow_natCast] at hp
        rw [div_pow, le_div_iff₀ (by positivity)] at hp
        norm_num at hp
      rw [show (((300:ℚ)) : ℝ) = (300:ℝ) by norm_num]
      nlinarith
    rw [min_eq_left hgt, max_eq_right (by norm_num : (200:ℝ) ≤ 2000)]
  · intro j hj
    have h20 : (2:ℝ) ^ ((j:ℝ) / 12) = 20 / 3 := by linarith
    have hpow : (2:ℝ) ^ ((j:ℝ)) = ((20:ℝ) / 3) ^ (12:ℕ) := by
      rw [← rpow_div12_pow12 (j:ℝ), h20]
    rcases le_or_lt 0 j with hjpos | hjneg
    · lift j to ℕ using hjpos
      push_cast at hpow
      rw [Real.rpow_natCast] at hpow
      have h3 : (2:ℝ) ^ j * 3 ^ (12:ℕ) = 20 ^ (12:ℕ) := by
        rw [hpow, div_pow]
        field_simp
      have hnat : (2 ^ j * 3 ^ 12 : ℕ) = 20 ^ 12 := by exact_mod_cast h3
      have hdvd : (3:ℕ) ∣ 2 ^ j * 3 ^ 12 := ⟨2 ^ j * 3 ^ 11, by ring⟩
      rw [hnat] at hdvd
      have := Nat.Prime.dvd_of_dvd_pow (by norm_num : Nat.Prime 3) hdvd
      norm_num at this
    · have hlt1 : (2:ℝ) ^ ((j:ℝ)) < 1 :=
        Real.rpow_lt_one_of_one_lt_of_neg (by norm_num) (by exact_mod_cast hjneg)
      have hgt1 : (1:ℝ) < ((20:ℝ) / 3) ^ (12:ℕ) := one_lt_pow₀ (by norm_num) (by norm_num)
      rw [hpow] at hlt1
      linarith

/-! ## Engine linear map vs mapper, concrete -/

/-- Claim C10 (counterexample): at hue 0 the engine synthesizes 200 Hz while
the mapper's scale-quantized map returns the base pitch 220 Hz. -/
theorem engine_vs_mapper_frequency_cex :
    hsvToFrequency 0 = 200 ∧
    mapHueToFrequency ScaleName.pentatonic 220 0 = 220 ∧
    ((hsvToFrequency 0 : ℚ) : ℝ) ≠ mapHueToFrequency ScaleName.pentatonic 220 0 := by
  have heng : hsvToFrequency 0 = 200 := by norm_num [hsvToFrequency]
  have hmap : mapHueToFrequency ScaleName.pentatonic 220 0 = 220 := by
    rw [mapHueToFrequency_eval ScaleName.pentatonic 220 0 0 0 0
      (by norm_num [musicalScales]) (by decide) (by norm_num)]
    rw [show ((0 * 12 + ((0:ℕ):ℤ) : ℤ) : ℝ) = (0:ℝ) by norm_num]
    rw [zero_div, Real.rpow_zero]
    norm_num
  refine ⟨heng, hmap, ?_⟩
  rw [heng, hmap]
  norm_num

